import Mathlib

/-!
Verification development for the hdx-scraper-ipc repository.

The definitions below are a shallow embedding of the row-shaping core in
`src/hdx/scraper/ipc/ipc.py` (class `IPC`) and of the harmonized-export
logic in `src/hdx/scraper/ipc/ipc_hapi.py` (class `HAPIOutput`).  Python
dictionaries whose key sets are fixed by the code are modelled as
structures; optional / nullable dictionary entries are `Option`s;
fallible code (exceptions propagating out of a function) is modelled by
returning `Option`, with `none` standing for an uncaught exception.
Python `datetime` values produced by this code are always midnight UTC,
so a calendar date triple with lexicographic order is a faithful model.
-/

set_option maxHeartbeats 1600000
set_option synthInstance.maxSize 1024

namespace IpcSpec

/-! ## Dates -/

structure Date where
  year : Nat
  month : Nat
  day : Nat
deriving DecidableEq, Repr

def Date.toTriple (d : Date) : Nat ×ₗ (Nat ×ₗ Nat) :=
  toLex (d.year, toLex (d.month, d.day))

theorem Date.toTriple_injective : Function.Injective Date.toTriple := by
  intro a b h
  cases a; cases b
  simp only [Date.toTriple, toLex_inj, Prod.mk.injEq] at h
  simp [h.1, h.2.1, h.2.2]

instance : LinearOrder Date := LinearOrder.lift' Date.toTriple Date.toTriple_injective

/-- `hdx.utilities.dateparse.default_date` (datetime(1, 1, 1, tzinfo=utc)). -/
def default_date : Date := ⟨1, 1, 1⟩

/-- `hdx.utilities.dateparse.default_enddate` (datetime(9999, 12, 31, tzinfo=utc)). -/
def default_enddate : Date := ⟨9999, 12, 31⟩

def isLeap (y : Nat) : Bool := y % 4 == 0 && (y % 100 != 0 || y % 400 == 0)

def daysInMonth (y m : Nat) : Nat :=
  if m = 2 then if isLeap y then 29 else 28
  else if m = 4 ∨ m = 6 ∨ m = 9 ∨ m = 11 then 30
  else 31

/-- One month forward, as `dateutil.relativedelta(months=1)` acts on a
day-1 date (no day clamping is ever needed on day 1). -/
def addOneMonth (d : Date) : Date :=
  if d.month = 12 then ⟨d.year + 1, 1, d.day⟩ else ⟨d.year, d.month + 1, d.day⟩

/-- One day backward, as `dateutil.relativedelta(days=-1)`. -/
def subOneDay (d : Date) : Date :=
  if 1 < d.day then ⟨d.year, d.month, d.day - 1⟩
  else if d.month = 1 then ⟨d.year - 1, 12, 31⟩
  else ⟨d.year, d.month - 1, daysInMonth d.year (d.month - 1)⟩

def padNat (w n : Nat) : String :=
  let s := toString n
  String.mk (List.replicate (w - s.length) '0') ++ s

/-- `date.isoformat()` for a date triple. -/
def isoDate (d : Date) : String :=
  padNat 4 d.year ++ "-" ++ padNat 2 d.month ++ "-" ++ padNat 2 d.day

/-! ## String splitting (Python `str.split(sep)`) -/

/-- Python `s.split(sep)` for a non-empty separator: split at every
non-overlapping occurrence, scanning left to right.  The `Nat` argument
is recursion fuel (each step consumes at least one character, so a fuel
of the input length always suffices); structural recursion on it keeps
the function kernel-reducible. -/
def splitSepAux (sep : List Char) : Nat → List Char → List Char → List (List Char)
  | _, [], acc => [acc.reverse]
  | 0, _, acc => [acc.reverse]
  | fuel + 1, c :: rest, acc =>
    if sep.isPrefixOf (c :: rest) then
      acc.reverse :: splitSepAux sep fuel (List.drop (sep.length - 1) rest) []
    else
      splitSepAux sep fuel rest (c :: acc)

def splitSep (sep : List Char) (cs : List Char) : List (List Char) :=
  splitSepAux sep cs.length cs []

/-! ## Month-year parsing (`IPC.parse_date`, ipc.py lines 102-105) -/

def monthIndex (s : String) : Option Nat :=
  if s = "Jan" then some 1 else if s = "Feb" then some 2
  else if s = "Mar" then some 3 else if s = "Apr" then some 4
  else if s = "May" then some 5 else if s = "Jun" then some 6
  else if s = "Jul" then some 7 else if s = "Aug" then some 8
  else if s = "Sep" then some 9 else if s = "Oct" then some 10
  else if s = "Nov" then some 11 else if s = "Dec" then some 12
  else none

def digitsToNat (cs : List Char) : Nat :=
  cs.foldl (fun a c => a * 10 + (c.toNat - 48)) 0

/-- `%Y` in `strptime`: exactly four digits; `datetime` additionally
rejects year 0 (`MINYEAR` is 1). -/
def parseYear4 (cs : List Char) : Option Nat :=
  if cs.length = 4 ∧ cs.all (·.isDigit) then
    let y := digitsToNat cs
    if y = 0 then none else some y
  else none

/-- Model of `IPC.parse_date`: `datetime.strptime(datestring, "%b %Y")`
(UTC, day 1).  `none` models the `ValueError` raised on a non-matching
string. -/
def parse_date (s : String) : Option Date :=
  match splitSep [' '] s.data with
  | [ms, ys] => do
    let m ← monthIndex (String.mk ms)
    let y ← parseYear4 ys
    some ⟨y, m, 1⟩
  | _ => none

/-! ## Date ranges (`IPC.parse_date_range`, ipc.py lines 107-119) -/

structure TimePeriod where
  start_date : Date
  end_date : Date
deriving DecidableEq, Repr

def rangeSep : List Char := [' ', '-', ' ']

/-- Model of `IPC.parse_date_range`.  Splits on `" - "`, parses both
tokens as month-year, widens the shared `time_period` accumulator, and
moves the end date to the last day of its month (one month forward, one
day back).  `none` models the `ValueError` raised when the split does
not produce exactly two parts or a token does not parse.  (In Python a
failure while parsing the second token leaves the already-widened start
bound in the mutated dict, but the exception then aborts the whole
country run, so no surviving state can observe the difference.) -/
def parse_date_range (date_range : String) (tp : TimePeriod) :
    Option ((String × String) × TimePeriod) :=
  match splitSep rangeSep date_range.data with
  | [a, b] => do
    let startdate ← parse_date (String.mk a)
    let tp1 := if startdate < tp.start_date then { tp with start_date := startdate } else tp
    let enddate0 ← parse_date (String.mk b)
    let enddate := subOneDay (addOneMonth enddate0)
    let tp2 := if tp1.end_date < enddate then { tp1 with end_date := enddate } else tp1
    some ((isoDate startdate, isoDate enddate), tp2)
  | _ => none

/-! ## Phases and projections

`IPC._phasemapping` maps field-name prefixes to phase labels in a fixed
(insertion) order: estimated→all, p3plus→3+, phase1..phase5→1..5.
`IPC._projections` / `_projection_names` / `_projection_suffixes` list
the three projection windows in fixed order. -/

inductive PhaseKey
  | estimated | p3plus | phase1 | phase2 | phase3 | phase4 | phase5
deriving DecidableEq, Repr

def PhaseKey.label : PhaseKey → String
  | .estimated => "all"
  | .p3plus => "3+"
  | .phase1 => "1"
  | .phase2 => "2"
  | .phase3 => "3"
  | .phase4 => "4"
  | .phase5 => "5"

/-- `_phasemapping` iteration order. -/
def phaseKeys : List PhaseKey :=
  [.estimated, .p3plus, .phase1, .phase2, .phase3, .phase4, .phase5]

inductive Projection
  | current | first | second
deriving DecidableEq, Repr

/-- `_projection_names[i]`. -/
def Projection.name : Projection → String
  | .current => "Current"
  | .first => "First projection"
  | .second => "Second projection"

/-- `projection_name.lower()`. -/
def Projection.lowerName : Projection → String
  | .current => "current"
  | .first => "first projection"
  | .second => "second projection"

/-- `_projections` iteration order. -/
def projectionsList : List Projection := [.current, .first, .second]

/-- A value per phase-key (one Python dict entry per key such as
`estimated_population_projected`; distinct keys never collide). -/
structure PhaseVec (α : Type) where
  estimated : α
  p3plus : α
  phase1 : α
  phase2 : α
  phase3 : α
  phase4 : α
  phase5 : α
deriving DecidableEq, Repr

def PhaseVec.get (v : PhaseVec α) : PhaseKey → α
  | .estimated => v.estimated
  | .p3plus => v.p3plus
  | .phase1 => v.phase1
  | .phase2 => v.phase2
  | .phase3 => v.phase3
  | .phase4 => v.phase4
  | .phase5 => v.phase5

def PhaseVec.setEstimated (v : PhaseVec α) (x : α) : PhaseVec α :=
  { v with estimated := x }

structure ProjVec (α : Type) where
  current : α
  first : α
  second : α
deriving DecidableEq, Repr

def ProjVec.get (v : ProjVec α) : Projection → α
  | .current => v.current
  | .first => v.first
  | .second => v.second

def ProjVec.set (v : ProjVec α) : Projection → α → ProjVec α
  | .current, x => { v with current := x }
  | .first, x => { v with first := x }
  | .second, x => { v with second := x }

def constPhaseVec (x : α) : PhaseVec α := ⟨x, x, x, x, x, x, x⟩

/-! ## Locations (analysis / group / area JSON nodes)

A location dict supplies, per projection, a `{projection}_period_dates`
string, and per phase-key the population (`p3plus{suffix}` for phase 3+,
`{prefix}_population{suffix}` otherwise) and `{prefix}_percentage{suffix}`
entries.  `.get` on an absent key yields `None`, so entries are
`Option`s (`none` covers both an absent key and an explicit `null`). -/

structure Location where
  periodDates : ProjVec (Option String)
  pops : ProjVec (PhaseVec (Option ℚ))
  pcts : ProjVec (PhaseVec (Option ℚ))
deriving DecidableEq, Repr

/-- In-place dict write `location[f"estimated_percentage{suffix}"] = 1.0`. -/
def Location.setEstimatedPct (loc : Location) (p : Projection) : Location :=
  { loc with pcts := loc.pcts.set p ((loc.pcts.get p).setEstimated (some 1)) }

/-- Python truthiness of an optional string (`None` and `""` are falsy). -/
def strTruthy : Option String → Bool
  | none => false
  | some s => s ≠ ""

/-! ## Rows -/

/-- The prototype columns shared by long and wide rows.  `level1`/`area`
model the `"Level 1"`/`"Area"` dict entries: the outer `Option` is key
presence, the inner one nullability. -/
structure BaseRow where
  dateOfAnalysis : String
  country : String
  totalPopulation : Option ℚ
  level1 : Option (Option String)
  area : Option (Option String)
deriving DecidableEq, Repr

structure LongRow where
  base : BaseRow
  validityPeriod : String
  fromDate : Option String
  toDate : Option String
  phase : String
  number : Option ℚ
  percentage : Option ℚ
deriving DecidableEq, Repr

/-- The per-projection column group of a wide row (`"{Name} from"`,
`"{Name} to"`, `"Population analyzed {name}"` / `"Phase {p} number
{name}"`, `"Phase {p} percentage {name}"`).  The `estimated` slot of
`pcts` has no wide column (the code writes percentages only for
prefixes other than `estimated`), so it is kept `none`. -/
structure ProjCols where
  fromDate : Option String
  toDate : Option String
  pops : PhaseVec (Option ℚ)
  pcts : PhaseVec (Option ℚ)
deriving DecidableEq, Repr

structure WideRow where
  base : BaseRow
  cols : ProjVec ProjCols
deriving DecidableEq, Repr

/-! ## RowBuilder (`IPC.add_country_subnational_rows`, ipc.py 121-176) -/

/-- One iteration of the `for i, projection in enumerate(self._projections)`
loop: resolves the period string from the (analysis-or-location) node,
parses it into the shared time period, sets the synthetic
`estimated_percentage` to 1.0 on the location, and produces this
projection's long rows (appended only when the population value is
non-`None` AND the period string is truthy) plus the projection's
wide-row columns. -/
def buildProjection (baseRow : BaseRow) (ana : Location) (p : Projection)
    (loc : Location) (tp : TimePeriod) :
    Option (List LongRow × ProjCols × TimePeriod × Location) := do
  let period_date := ana.periodDates.get p
  let (period_start, period_end, tp1) ←
    if strTruthy period_date then do
      let (se, tp1) ← parse_date_range (period_date.getD "") tp
      some (some se.1, some se.2, tp1)
    else
      some (none, none, tp)
  let loc1 := loc.setEstimatedPct p
  let longs := phaseKeys.filterMap fun k =>
    let affected := (loc1.pops.get p).get k
    if affected.isSome ∧ strTruthy period_date then
      some { base := baseRow
             validityPeriod := p.lowerName
             fromDate := period_start
             toDate := period_end
             phase := k.label
             number := affected
             percentage := (loc1.pcts.get p).get k }
    else
      none
  let cols : ProjCols :=
    { fromDate := period_start
      toDate := period_end
      pops := loc1.pops.get p
      pcts := (loc1.pcts.get p).setEstimated none }
  some (longs, cols, tp1, loc1)

/-- Model of `IPC.add_country_subnational_rows`.  `rows` / `rows_wide`
are the mutable lists passed in; the call appends its long rows and
exactly one wide row.  When `analysis` is `None` the location itself
provides the period dates.  `none` models an uncaught date-parse
exception. -/
def add_country_subnational_rows (base_row : BaseRow) (tp : TimePeriod)
    (location : Location) (rows : List LongRow) (rows_wide : List WideRow)
    (analysis : Option Location) :
    Option (List LongRow × List WideRow × TimePeriod × Location) := do
  let ana := analysis.getD location
  let (l1, c1, tp1, loc1) ← buildProjection base_row ana .current location tp
  let (l2, c2, tp2, loc2) ← buildProjection base_row ana .first loc1 tp1
  let (l3, c3, tp3, loc3) ← buildProjection base_row ana .second loc2 tp2
  some (rows ++ (l1 ++ (l2 ++ l3)), rows_wide ++ [{ base := base_row, cols := ⟨c1, c2, c3⟩ }],
    tp3, loc3)

/-! ## Hierarchy (`IPC.add_subnational_rows`, ipc.py 196-243)

An `"areas"` dict entry can be a present list, a present `null`
(`adm["areas"] is None` — logged and skipped), or an absent key
(`adm["areas"]` raises `KeyError`).  Groups are reached through
`analysis.get("groups")`, where an absent key and `null` behave
identically (both falsy), so a single `Option (List GroupNode)` with
`some []` for a present empty list is faithful there. -/

structure AreaNode where
  name : String
  loc : Location
deriving DecidableEq, Repr

inductive AreasField
  | absent
  | null
  | list (l : List AreaNode)
deriving DecidableEq, Repr

structure GroupNode where
  name : String
  loc : Location
  areas : AreasField
deriving DecidableEq, Repr

structure AnalysisNode where
  analysis_date : String
  population : Option ℚ
  title : String
  loc : Location
  groups : Option (List GroupNode)
  areas : AreasField
deriving DecidableEq, Repr

/-- `IPC.get_base_row` (ipc.py 178-184). -/
def get_base_row (analysis : AnalysisNode) (countryiso3 : String) : BaseRow :=
  { dateOfAnalysis := analysis.analysis_date
    country := countryiso3
    totalPopulation := analysis.population
    level1 := none
    area := none }

/-- `IPC.add_country_rows` (ipc.py 186-194). -/
def add_country_rows (analysis : AnalysisNode) (countryiso3 : String)
    (tp : TimePeriod) (rows : List LongRow) (rows_wide : List WideRow) :
    Option (List LongRow × List WideRow × TimePeriod × Location) :=
  add_country_subnational_rows (get_base_row analysis countryiso3) tp analysis.loc
    rows rows_wide none

/-- The `for area in adm["areas"]` loop body of `process_areas`. -/
def processAreaList (analysis : AnalysisNode) (adm_row : BaseRow) :
    List AreaNode → TimePeriod → List LongRow → List WideRow →
    Option (List LongRow × List WideRow × TimePeriod)
  | [], tp, area_rows, area_rows_wide => some (area_rows, area_rows_wide, tp)
  | area :: rest, tp, area_rows, area_rows_wide => do
    let area_row : BaseRow :=
      { adm_row with
        level1 := if adm_row.level1 = none then some none else adm_row.level1
        area := some (some area.name) }
    let (r1, w1, tp1, _) ← add_country_subnational_rows area_row tp area.loc
      area_rows area_rows_wide (some analysis.loc)
    processAreaList analysis adm_row rest tp1 r1 w1

/-- `process_areas(adm_row, adm)` (ipc.py 206-224): `adm["areas"]`
raises `KeyError` on an absent key (`none` here); a present `null` is
logged as an error and the subtree skipped; otherwise each area is
processed with the analysis node supplying the period dates. -/
def processAreas (analysis : AnalysisNode) (adm_row : BaseRow) (af : AreasField)
    (tp : TimePeriod) (area_rows : List LongRow) (area_rows_wide : List WideRow) :
    Option (List LongRow × List WideRow × TimePeriod) :=
  match af with
  | .absent => none
  | .null => some (area_rows, area_rows_wide, tp)
  | .list l => processAreaList analysis adm_row l tp area_rows area_rows_wide

/-- The `for group in analysis["groups"]` loop of `add_subnational_rows`:
build the group row, then (only when the group dict has an `"areas"`
key at all) process its areas. -/
def processGroupList (analysis : AnalysisNode) (base_row : BaseRow) :
    List GroupNode → TimePeriod → List LongRow → List WideRow → List LongRow → List WideRow →
    Option (List LongRow × List WideRow × List LongRow × List WideRow × TimePeriod)
  | [], tp, group_rows, group_rows_wide, area_rows, area_rows_wide =>
    some (group_rows, group_rows_wide, area_rows, area_rows_wide, tp)
  | group :: rest, tp, group_rows, group_rows_wide, area_rows, area_rows_wide => do
    let group_row : BaseRow := { base_row with level1 := some (some group.name) }
    let (gr, gw, tp1, _) ← add_country_subnational_rows group_row tp group.loc
      group_rows group_rows_wide (some analysis.loc)
    let (ar, aw, tp2) ←
      if group.areas ≠ .absent then
        processAreas analysis group_row group.areas tp1 area_rows area_rows_wide
      else
        some (area_rows, area_rows_wide, tp1)
    processGroupList analysis base_row rest tp2 gr gw ar aw

/-- Model of `IPC.add_subnational_rows`. -/
def add_subnational_rows (analysis : AnalysisNode) (countryiso3 : String)
    (tp : TimePeriod) (group_rows : List LongRow) (group_rows_wide : List WideRow)
    (area_rows : List LongRow) (area_rows_wide : List WideRow) :
    Option (List LongRow × List WideRow × List LongRow × List WideRow × TimePeriod) :=
  let base_row := get_base_row analysis countryiso3
  match analysis.groups with
  | some (g :: gs) =>
    processGroupList analysis base_row (g :: gs) tp group_rows group_rows_wide
      area_rows area_rows_wide
  | _ => do
    let (ar, aw, tp1) ← processAreas analysis base_row analysis.areas tp
      area_rows area_rows_wide
    some (group_rows, group_rows_wide, ar, aw, tp1)

/-! ## Country aggregation (`IPC.get_country_data`, ipc.py 245-348)

The in-place mutation of location dicts (the synthetic
`estimated_percentage` write) only ever touches slots that every later
read overwrites first, so walks of the same analysis objects are
modelled as pure functions of the original nodes; within one
`add_country_subnational_rows` call the mutation is threaded exactly. -/

structure RowSets where
  country_rows : List LongRow
  country_rows_wide : List WideRow
  group_rows : List LongRow
  group_rows_wide : List WideRow
  area_rows : List LongRow
  area_rows_wide : List WideRow
deriving DecidableEq, Repr

def emptyRowSets : RowSets := ⟨[], [], [], [], [], []⟩

/-- One `add_country_rows` + `add_subnational_rows` pair, as performed
for each analysis in both the latest and the all-history passes. -/
def walkAnalysis (a : AnalysisNode) (countryiso3 : String) (rs : RowSets)
    (tp : TimePeriod) : Option (RowSets × TimePeriod) := do
  let (cr, cw, tp1, _) ← add_country_rows a countryiso3 tp rs.country_rows rs.country_rows_wide
  let (gr, gw, ar, aw, tp2) ← add_subnational_rows a countryiso3 tp1
    rs.group_rows rs.group_rows_wide rs.area_rows rs.area_rows_wide
  some ({ country_rows := cr, country_rows_wide := cw, group_rows := gr,
          group_rows_wide := gw, area_rows := ar, area_rows_wide := aw }, tp2)

/-- The `for analysis in country_data` all-history loop. -/
def walkAnalyses (countryiso3 : String) :
    List AnalysisNode → RowSets → TimePeriod → Option (RowSets × TimePeriod)
  | [], rs, tp => some (rs, tp)
  | a :: rest, rs, tp => do
    let (rs1, tp1) ← walkAnalysis a countryiso3 rs tp
    walkAnalyses countryiso3 rest rs1 tp1

/-- The persistent `state` dict: `DEFAULT`, per-country watermarks,
`START_DATE` / `END_DATE`. -/
structure StateD where
  defaultDate : Date
  countries : List (String × Date)
  startDate : Option Date
  endDate : Option Date
deriving DecidableEq, Repr

def StateD.lookup (st : StateD) (iso3 : String) : Option Date :=
  List.lookup iso3 st.countries

def setAssoc (l : List (String × Date)) (k : String) (v : Date) : List (String × Date) :=
  match l with
  | [] => [(k, v)]
  | (k', v') :: rest => if k' = k then (k, v) :: rest else (k', v') :: setAssoc rest k v

def StateD.setCountry (st : StateD) (iso3 : String) (d : Date) : StateD :=
  { st with countries := setAssoc st.countries iso3 d }

/-- `IPC._output`: the process-wide accumulated output bundle. -/
structure OutputBundle where
  latest : RowSets
  allHistory : RowSets
  start_date : Date
  end_date : Date
deriving DecidableEq, Repr

def RowSets.extend (a b : RowSets) : RowSets :=
  { country_rows := a.country_rows ++ b.country_rows
    country_rows_wide := a.country_rows_wide ++ b.country_rows_wide
    group_rows := a.group_rows ++ b.group_rows
    group_rows_wide := a.group_rows_wide ++ b.group_rows_wide
    area_rows := a.area_rows ++ b.area_rows
    area_rows_wide := a.area_rows_wide ++ b.area_rows_wide }

/-- The per-country `output` dict built by `get_country_data`.  The
six `*_latest` keys exist only when a current analysis was found; the
geojson path is produced by the external retriever and is modelled by
its deterministic filename. -/
structure CountryOutput where
  countryiso3 : String
  geojson : Option String
  latestSets : Option RowSets
  historySets : RowSets
  start_date : Date
  end_date : Date
deriving DecidableEq, Repr

def strLowerChar (c : Char) : Char :=
  if 'A' ≤ c ∧ c ≤ 'Z' then Char.ofNat (c.toNat + 32) else c

def strLower (s : String) : String := String.mk (s.data.map strLowerChar)

/-- The latest-analysis pass of `get_country_data` (ipc.py 263-304):
find the most recent analysis with truthy `current_period_dates`; if
found, fetch its boundary geojson (external; modelled by the
deterministic filename) and walk it once. -/
def latestPass (country_data : List AnalysisNode) (countryiso3 : String)
    (tp0 : TimePeriod) : Option (Option String × Option RowSets × TimePeriod) :=
  match country_data.find? fun a => strTruthy (a.loc.periodDates.get .current) with
  | some a => do
    let _ ← parse_date a.analysis_date
    let (rsL, tp1) ← walkAnalysis a countryiso3 emptyRowSets tp0
    some (some ("ipc_" ++ strLower countryiso3 ++ ".geojson"), some rsL, tp1)
  | none => some (none, none, tp0)

/-- Extending the accumulated latest tables (ipc.py 297-302). -/
def applyLatest (out : OutputBundle) (latestSets : Option RowSets) : OutputBundle :=
  match latestSets with
  | some rsL => { out with latest := out.latest.extend rsL }
  | none => out

/-- The global date-window update (ipc.py 336-345). -/
def applyWindow (out : OutputBundle) (st : StateD) (tpB : TimePeriod) :
    OutputBundle × StateD :=
  let out3 :=
    if tpB.start_date < out.start_date then { out with start_date := tpB.start_date }
    else out
  let st2 :=
    if tpB.start_date < out.start_date then { st with startDate := some tpB.start_date }
    else st
  let out4 :=
    if out3.end_date < tpB.end_date then { out3 with end_date := tpB.end_date }
    else out3
  let st3 :=
    if out3.end_date < tpB.end_date then { st2 with endDate := some tpB.end_date }
    else st2
  (out4, st3)

/-- Model of `IPC.get_country_data`.  The `country_data` list stands for
the JSON downloaded for the country (newest analysis first).  Returns
the per-country output (`none` inside `some` models the Python `return
None`), the updated state dict, and the updated accumulated bundle; an
outer `none` models an uncaught exception. -/
def get_country_data (country_data : List AnalysisNode) (countryiso3 : String)
    (st : StateD) (out : OutputBundle) :
    Option (Option CountryOutput × StateD × OutputBundle) :=
  match country_data with
  | [] => some (none, st, out)
  | most_recent_analysis :: _ => do
    let analysis_date ← parse_date most_recent_analysis.analysis_date
    let update : Bool :=
      if analysis_date ≤ (st.lookup countryiso3).getD st.defaultDate then false else true
    let st1 := st.setCountry countryiso3 analysis_date
    let tp0 : TimePeriod := ⟨default_enddate, default_date⟩
    let (geojson, latestSets, tpA) ← latestPass country_data countryiso3 tp0
    let out1 := applyLatest out latestSets
    let (rsH, tpB) ← walkAnalyses countryiso3 country_data emptyRowSets tpA
    let out2 := { out1 with allHistory := out1.allHistory.extend rsH }
    let outSt := applyWindow out2 st1 tpB
    let result : Option CountryOutput :=
      if update then
        some { countryiso3 := countryiso3, geojson := geojson, latestSets := latestSets,
               historySets := rsH, start_date := tpB.start_date, end_date := tpB.end_date }
      else none
    some (result, outSt.2, outSt.1)

/-- The per-country driver loop: each country's downloaded analysis list
is fed through `get_country_data`, threading the persistent state and
the accumulated global bundle. -/
def processCountries :
    List (String × List AnalysisNode) → StateD → OutputBundle →
    Option (StateD × OutputBundle)
  | [], st, out => some (st, out)
  | (iso3, cd) :: rest, st, out => do
    let (_, st1, out1) ← get_country_data cd iso3 st out
    processCountries rest st1 out1

/-! ## HAPI output (`HAPIOutput.process_data`, ipc_hapi.py 51-333)

The harmonized export consumes the accumulated all-history wide tables.
External collaborators are parameters: the HRP/GHO country-status
lookups, the `complete_admins` pcode matcher, and the dataset/resource
ids read from the hosting platform.  The `hapi_adm_matching`
configuration is a parameter structure. -/

structure AdmConfig where
  adm1_only : List String
  adm2_only : List String
  adm2_only_include_adm1 : List String
  adm2_in_level1 : List String
  adm1_in_area : List String
  adm_ignore_patterns : List String
deriving DecidableEq, Repr

/-- Python truthiness of a `str`-or-`None` value. -/
def optFalsy : Option String → Bool
  | none => true
  | some s => s = ""

/-- Python f-string rendering of a `str`-or-`None` value. -/
def strOfOpt : Option String → String
  | none => "None"
  | some s => s

/-- `pat in s` (substring containment). -/
def containsSub (pat s : String) : Bool := decide (pat.data <:+: s.data)

def joinPipe (l : List String) : String := String.intercalate "|" l

structure ClassifyResult where
  rowAdminLevel : Nat
  provider1 : Option String
  provider2 : Option String
  match1 : Option String
  match2 : Option String
  warnings : List String
deriving DecidableEq, Repr

/-- The admin-classification block of `process_data` (ipc_hapi.py
86-188), run only for rows of the level-1 and area tables
(`admin_level > 0`): classify the provider-given `Level 1` / `Area`
names per the per-country exception configuration, then blank the match
names when an ignore pattern matches.  `lvl` / `area` are the values of
`row.get("Level 1", "")` / `row.get("Area", "")` (which can be `None`
when the key is present with a null value). -/
def classify_admins (cfg : AdmConfig) (countryiso3 : String) (admin_level : Nat)
    (lvl area : Option String) : ClassifyResult :=
  let base : ClassifyResult :=
    if countryiso3 ∈ cfg.adm1_only then
      if admin_level = 2 then
        { rowAdminLevel := admin_level, provider1 := lvl, provider2 := area,
          match1 := some "", match2 := some "",
          warnings := ["Admin level not present in CODs"] }
      else
        { rowAdminLevel := admin_level, provider1 := lvl, provider2 := some "",
          match1 := lvl, match2 := some "", warnings := [] }
    else if countryiso3 ∈ cfg.adm2_only then
      if admin_level = 1 then
        { rowAdminLevel := admin_level, provider1 := lvl, provider2 := some "",
          match1 := some "", match2 := some "",
          warnings := ["Admin level not present in CODs"] }
      else
        { rowAdminLevel := admin_level, provider1 := lvl, provider2 := area,
          match1 := some "", match2 := area, warnings := [] }
    else if countryiso3 ∈ cfg.adm2_only_include_adm1 then
      { rowAdminLevel := admin_level, provider1 := lvl, provider2 := area,
        match1 := lvl, match2 := area, warnings := [] }
    else if countryiso3 ∈ cfg.adm2_in_level1 then
      { rowAdminLevel := 2, provider1 := some "", provider2 := lvl,
        match1 := some "", match2 := lvl, warnings := [] }
    else if countryiso3 ∈ cfg.adm1_in_area then
      if admin_level = 1 then
        { rowAdminLevel := admin_level, provider1 := lvl, provider2 := area,
          match1 := some "", match2 := some "",
          warnings := ["Non-matching admin one unit"] }
      else
        { rowAdminLevel := 1, provider1 := area, provider2 := some "",
          match1 := area, match2 := some "", warnings := [] }
    else
      let r0 : ClassifyResult :=
        { rowAdminLevel := admin_level, provider1 := lvl, provider2 := area,
          match1 := lvl, match2 := area, warnings := [] }
      let r1 :=
        if optFalsy r0.provider1 then
          let w0 := if admin_level = 1 then ["Blank Level 1 name"] else []
          let r' : ClassifyResult :=
            { rowAdminLevel := 1, provider1 := area, provider2 := some "",
              match1 := area, match2 := some "", warnings := w0 }
          if optFalsy r'.provider1 then
            { r' with warnings := r'.warnings ++ ["Blank Area name"] }
          else r'
        else r0
      if optFalsy r1.provider2 then { r1 with rowAdminLevel := 1 } else r1
  let full_adm_name :=
    countryiso3 ++ "|" ++ strOfOpt base.match1 ++ "|" ++ strOfOpt base.match2
  if cfg.adm_ignore_patterns.any (fun x => containsSub x (strLower full_adm_name)) then
    { base with
      match1 := some ""
      match2 := some ""
      warnings := base.warnings ++ ["Cannot match row"] }
  else base

/-- `complete_admins` collaborator: country + match names in, the
resolved `adm_codes`, `adm_names`, and additional warnings out. -/
def Matcher : Type :=
  String → Option String → Option String → (String × String) × (String × String) × List String

structure HapiRow where
  location_code : String
  has_hrp : String
  in_gho : String
  provider_admin1_name : Option String
  provider_admin2_name : Option String
  admin1_code : String
  admin1_name : String
  admin2_code : String
  admin2_name : String
  admin_level : Nat
  ipc_phase : String
  ipc_type : String
  population_in_phase : ℚ
  population_fraction_in_phase : Option ℚ
  reference_period_start : Option String
  reference_period_end : Option String
  dataset_hdx_id : String
  resource_hdx_id : String
  warning : String
  error : String
  date_of_analysis : String
  analysis_id : Nat
deriving DecidableEq, Repr

/-- The duplicate-check primary key: (country, admin1 code, admin2 code,
provider admin1 name, provider admin2 name, projection, period start). -/
abbrev PKey : Type :=
  String × String × String × Option String × Option String × String × String

/-- (analysis_id, population_analyzed, date_of_analysis). -/
abbrev DupEntry : Type := Nat × ℚ × Date

abbrev DupCheck : Type := List (PKey × List DupEntry)

/-- `hdx.utilities.dictandlist.dict_of_lists_add`: append the value to
the list at the key, inserting the key at the end if absent. -/
def dict_of_lists_add (k : PKey) (v : DupEntry) : DupCheck → DupCheck
  | [] => [(k, [v])]
  | (k', vs) :: rest =>
    if k' = k then (k', vs ++ [v]) :: rest else (k', vs) :: dict_of_lists_add k v rest

/-- ISO `YYYY-MM-DD` parsing, as `hdx.utilities.dateparse.parse_date`
behaves on the ISO strings this pipeline feeds it. -/
def parseNatDigits (cs : List Char) : Option Nat :=
  if cs ≠ [] ∧ cs.all (·.isDigit) then some (digitsToNat cs) else none

def isoParse (s : String) : Option Date :=
  match splitSep ['-'] s.data with
  | [ys, ms, ds] => do
    let y ← parseYear4 ys
    let m ← parseNatDigits ms
    let d ← parseNatDigits ds
    if 1 ≤ m ∧ m ≤ 12 ∧ 1 ≤ d ∧ d ≤ daysInMonth y m then some ⟨y, m, d⟩ else none
  | _ => none

/-- The phase labels iterated by the phase loop (ipc_hapi.py 236). -/
def hapiPhases : List String := ["all", "3+", "1", "2", "3", "4", "5"]

def phaseKeyOfLabel (s : String) : PhaseKey :=
  if s = "3+" then .p3plus
  else if s = "1" then .phase1
  else if s = "2" then .phase2
  else if s = "3" then .phase3
  else if s = "4" then .phase4
  else if s = "5" then .phase5
  else .estimated

/-- Everything about one wide row that the projection/phase loops use
unchanged. -/
structure RowCtx where
  iso3 : String
  hrp : String
  gho : String
  adminLevel : Nat
  prov1 : Option String
  prov2 : Option String
  code1 : String
  code2 : String
  name1 : String
  name2 : String
  warning : String
  datasetId : String
  resourceId : String
  doa : Date
deriving DecidableEq, Repr

/-- The phase loop (ipc_hapi.py 236-275): one HAPI row per phase whose
population value is non-`None`; the `all` phase uses the analyzed
population with fraction 1. -/
def hapiPhaseRows (ctx : RowCtx) (pc : ProjCols) (popA : ℚ) (p : Projection)
    (tps tpe : Option String) (err : String) (id : Nat) : List HapiRow :=
  hapiPhases.filterMap fun ph =>
    let pip := if ph = "all" then some popA else pc.pops.get (phaseKeyOfLabel ph)
    let frac := if ph = "all" then some (1 : ℚ) else pc.pcts.get (phaseKeyOfLabel ph)
    pip.map fun v =>
      { location_code := ctx.iso3
        has_hrp := ctx.hrp
        in_gho := ctx.gho
        provider_admin1_name := ctx.prov1
        provider_admin2_name := ctx.prov2
        admin1_code := ctx.code1
        admin1_name := ctx.name1
        admin2_code := ctx.code2
        admin2_name := ctx.name2
        admin_level := ctx.adminLevel
        ipc_phase := ph
        ipc_type := p.lowerName
        population_in_phase := v
        population_fraction_in_phase := frac
        reference_period_start := tps
        reference_period_end := tpe
        dataset_hdx_id := ctx.datasetId
        resource_hdx_id := ctx.resourceId
        warning := ctx.warning
        error := err
        date_of_analysis := isoDate ctx.doa
        analysis_id := id }

structure GenState where
  hapiRows : List HapiRow
  dc : DupCheck
  counter : Nat
deriving DecidableEq, Repr

def noPeriodMsg : String := "No time period provided"

/-- One iteration of the projection loop (ipc_hapi.py 201-275):
skip when the analyzed population is `None`; allocate the next
`analysis_id`; either record the missing-period error or normalize the
period bounds and register the duplicate-check entry; then emit the
phase rows. -/
def projLoopStep (ctx : RowCtx) (cols : ProjVec ProjCols) (p : Projection)
    (g : GenState) : Option GenState :=
  let pc := cols.get p
  match pc.pops.estimated with
  | none => some g
  | some popA =>
    let id := g.counter + 1
    match pc.fromDate with
    | none =>
      let rows := hapiPhaseRows ctx pc popA p none none noPeriodMsg id
      some ⟨g.hapiRows ++ rows, g.dc, id⟩
    | some fs => do
      let fd ← isoParse fs
      let tos ← pc.toDate
      let td ← isoParse tos
      let tpsS := isoDate fd
      let tpeS := isoDate td
      let key : PKey := (ctx.iso3, ctx.code1, ctx.code2, ctx.prov1, ctx.prov2,
        p.lowerName, tpsS)
      let dc1 := dict_of_lists_add key (id, popA, ctx.doa) g.dc
      let rows := hapiPhaseRows ctx pc popA p (some tpsS) (some tpeS) "" id
      some ⟨g.hapiRows ++ rows, dc1, id⟩

/-- The per-row context assembled before the projection loop
(ipc_hapi.py 74-200): HRP/GHO flags, the admin classification and
pcode-matcher results, and the parsed date of analysis. -/
def rowCtxOf (cfg : AdmConfig) (matcher : Matcher) (hrpGho : String → Bool × Bool)
    (dsId rsId : String) (admin_level : Nat) (wr : WideRow) (doa : Date) : RowCtx :=
  let iso3 := wr.base.country
  let hrp := if (hrpGho iso3).1 then "Y" else "N"
  let gho := if (hrpGho iso3).2 then "Y" else "N"
  let (rowAdminLevel, prov, codes, names, warns) :=
    if 0 < admin_level then
      let lvl := (wr.base.level1).getD (some "")
      let area := (wr.base.area).getD (some "")
      let c := classify_admins cfg iso3 admin_level lvl area
      let (codes, names, aw) := matcher iso3 c.match1 c.match2
      (c.rowAdminLevel, (c.provider1, c.provider2), codes, names, c.warnings ++ aw)
    else
      (admin_level, ((some "" : Option String), (some "" : Option String)),
        ("", ""), ("", ""), ([] : List String))
  { iso3 := iso3, hrp := hrp, gho := gho, adminLevel := rowAdminLevel,
    prov1 := prov.1, prov2 := prov.2, code1 := codes.1, code2 := codes.2,
    name1 := names.1, name2 := names.2, warning := joinPipe warns,
    datasetId := dsId, resourceId := rsId, doa := doa }

/-- One iteration of the row loop (ipc_hapi.py 74-275). -/
def rowStep (cfg : AdmConfig) (matcher : Matcher) (hrpGho : String → Bool × Bool)
    (dsId rsId : String) (admin_level : Nat) (wr : WideRow) (g : GenState) :
    Option GenState := do
  let doa ← parse_date wr.base.dateOfAnalysis
  let ctx := rowCtxOf cfg matcher hrpGho dsId rsId admin_level wr doa
  let g1 ← projLoopStep ctx wr.cols .current g
  let g2 ← projLoopStep ctx wr.cols .first g1
  projLoopStep ctx wr.cols .second g2

def genRows (cfg : AdmConfig) (matcher : Matcher) (hrpGho : String → Bool × Bool)
    (dsId rsId : String) (admin_level : Nat) :
    List WideRow → GenState → Option GenState
  | [], g => some g
  | wr :: rest, g => do
    let g1 ← rowStep cfg matcher hrpGho dsId rsId admin_level wr g
    genRows cfg matcher hrpGho dsId rsId admin_level rest g1

/-- One accumulated wide table fed to the harmonized export, with its
admin level and the hosting platform's resource id. -/
structure TableInput where
  adminLevel : Nat
  resourceId : String
  rows : List WideRow
deriving DecidableEq, Repr

def genTables (cfg : AdmConfig) (matcher : Matcher) (hrpGho : String → Bool × Bool)
    (dsId : String) : List TableInput → GenState → Option GenState
  | [], g => some g
  | t :: rest, g => do
    let g1 ← genRows cfg matcher hrpGho dsId t.resourceId t.adminLevel t.rows g
    genTables cfg matcher hrpGho dsId rest g1

/-! ### Duplicate resolution (ipc_hapi.py 277-327) -/

abbrev Marks : Type := List (Nat × String)

def getMark : Marks → Nat → Option String
  | [], _ => none
  | (i, s) :: rest, j => if i = j then some s else getMark rest j

/-- Python dict assignment `duplicates[id] = s`. -/
def setMark : Marks → Nat → String → Marks
  | [], j, s => [(j, s)]
  | (i, t) :: rest, j, s =>
    if i = j then (i, s) :: rest else (i, t) :: setMark rest j s

def dateMsg : String := "Duplicate row with earlier date of analysis excluded"
def popMsg : String := "Duplicate row with lower population analyzed excluded"
def tieMsg : String := "Duplicate row excluded"

/-- Python `max(list)` for a non-empty list. -/
def listMax [LinearOrder α] : List α → Option α
  | [] => none
  | x :: xs => some (xs.foldl max x)

def markEarlier (latest : Date) (vs : List DupEntry) (d : Marks) : Marks :=
  vs.foldl (fun acc v => if v.2.2 ≠ latest then setMark acc v.1 dateMsg else acc) d

def markLowerPop (highest : ℚ) (vs : List DupEntry) (d : Marks) : Marks :=
  vs.foldl
    (fun acc v =>
      if v.2.1 ≠ highest ∧ (getMark acc v.1).isNone then setMark acc v.1 popMsg else acc)
    d

/-- The body of `for _, values in duplicate_check.items()` (ipc_hapi.py
284-316): records with an earlier `date_of_analysis` are marked first,
then (among the survivors) records with a lower analyzed population,
then all but the first of any remaining exact ties.  (The `values`
list of a generated duplicate-check entry is never empty; the empty
case here mirrors the `len == 1` skip for totality.) -/
def dupGroupStep (vs : List DupEntry) (d : Marks) : Marks :=
  if vs.length ≤ 1 then d
  else
    match listMax (vs.map fun v => v.2.2) with
    | none => d
    | some latest =>
      let d1 := markEarlier latest vs d
      let left := vs.filterMap fun v => if (getMark d1 v.1).isNone then some v.1 else none
      if left.length = 1 then d1
      else
        let pops := vs.filterMap fun v => if v.1 ∈ left then some v.2.1 else none
        match listMax pops with
        | none => d1
        | some highest =>
          let d2 := markLowerPop highest vs d1
          if 1 < pops.count highest then
            let same := vs.filterMap fun v =>
              if v.2.1 = highest ∧ (getMark d2 v.1).isNone then some v.1 else none
            same.tail.foldl (fun acc i => setMark acc i tieMsg) d2
          else d2

def findDupsGo : DupCheck → Marks → Marks
  | [], d => d
  | (_, vs) :: rest, d => findDupsGo rest (dupGroupStep vs d)

def findDuplicates (dc : DupCheck) : Marks := findDupsGo dc []

/-- Appending a duplicate error to a row's `error` column (ipc_hapi.py
318-327): split on `|`, drop the empty-string artifact, append, rejoin
— equivalently, append with a `|` separator unless the field was empty. -/
def appendErr (err e : String) : String := if err = "" then e else err ++ "|" ++ e

def markRow (dups : Marks) (r : HapiRow) : HapiRow :=
  match getMark dups r.analysis_id with
  | none => r
  | some e => { r with error := appendErr r.error e }

def applyMarks (dups : Marks) (rows : List HapiRow) : List HapiRow :=
  rows.map (markRow dups)

/-- Model of `HAPIOutput.process_data`: generate the HAPI rows and the
duplicate-check index over the given wide tables, then annotate
duplicates.  `none` models an uncaught exception. -/
def process_data (cfg : AdmConfig) (matcher : Matcher)
    (hrpGho : String → Bool × Bool) (dsId : String) (tables : List TableInput) :
    Option (List HapiRow) := do
  let g ← genTables cfg matcher hrpGho dsId tables ⟨[], [], 0⟩
  some (applyMarks (findDuplicates g.dc) g.hapiRows)

/-! ## Derived definitions used by the specification statements -/

/-- The pure content of `parse_date_range`: the parsed start date and
the month-end-adjusted end date, without the accumulator side effect. -/
def rangeOf (s : String) : Option (Date × Date) :=
  match splitSep rangeSep s.data with
  | [a, b] => do
    let sd ← parse_date (String.mk a)
    let ed ← parse_date (String.mk b)
    some (sd, subOneDay (addOneMonth ed))
  | _ => none

/-- The accumulator side effect of one `parse_date_range` call. -/
def widen (tp : TimePeriod) (r : Date × Date) : TimePeriod :=
  ⟨min tp.start_date r.1, max tp.end_date r.2⟩

def widenList (tp : TimePeriod) (rs : List (Date × Date)) : TimePeriod :=
  rs.foldl widen tp

/-- The (zero or one) period range a projection contributes for a node:
present exactly when the period string is truthy and parses. -/
def projRange (ana : Location) (p : Projection) : List (Date × Date) :=
  if strTruthy (ana.periodDates.get p) then
    match rangeOf ((ana.periodDates.get p).getD "") with
    | some r => [r]
    | none => []
  else []

/-- All period ranges contributed by one analysis node (its three
projections in loop order). -/
def anaRangesT (ana : Location) : List (Date × Date) :=
  projRange ana .current ++ (projRange ana .first ++ projRange ana .second)

def countryRangesT (cd : List AnalysisNode) : List (Date × Date) :=
  cd.flatMap fun a => anaRangesT a.loc

def inputsRanges (inputs : List (String × List AnalysisNode)) : List (Date × Date) :=
  inputs.flatMap fun pr => countryRangesT pr.2

/-- Every analysis id recorded in the duplicate-check index. -/
def dcIds (dc : DupCheck) : List Nat :=
  dc.flatMap fun kv => kv.2.map fun v => v.1

/-- Invariant of the HAPI row/duplicate-check generation: ids recorded
in the index are drawn from the allocated counter range and are
pairwise distinct; every generated row's id is allocated; a row whose
id is indexed has an empty error column, and a row carrying the
missing-period error is not indexed and has null period bounds. -/
def GoodGen (g : GenState) : Prop :=
  (∀ i ∈ dcIds g.dc, i ≤ g.counter) ∧
  (dcIds g.dc).Nodup ∧
  (∀ r ∈ g.hapiRows, r.analysis_id ≤ g.counter) ∧
  ∀ r ∈ g.hapiRows,
    (r.analysis_id ∈ dcIds g.dc → r.error = "") ∧
    (r.error = noPeriodMsg →
      r.analysis_id ∉ dcIds g.dc ∧ r.reference_period_start = none ∧
        r.reference_period_end = none)

def marksDom (d : Marks) : List Nat := d.map fun m => m.1

/-- "The dates of analysis differ" within one duplicate-check group. -/
def datesDiffer (vs : List DupEntry) : Prop :=
  ∃ v ∈ vs, ∃ w ∈ vs, v.2.2 ≠ w.2.2

/-! ## Concrete inputs used by witnesses -/

def emptyPhaseQ : PhaseVec (Option ℚ) := constPhaseVec none

def witEmptyLoc : Location :=
  ⟨⟨none, none, none⟩, ⟨emptyPhaseQ, emptyPhaseQ, emptyPhaseQ⟩,
   ⟨emptyPhaseQ, emptyPhaseQ, emptyPhaseQ⟩⟩

def witLoc : Location :=
  { periodDates := ⟨some "May 2023 - Oct 2023", none, none⟩
    pops := ⟨⟨some 100, none, none, none, none, some 5, none⟩, emptyPhaseQ, emptyPhaseQ⟩
    pcts := ⟨emptyPhaseQ, emptyPhaseQ, emptyPhaseQ⟩ }

def witBase : BaseRow := ⟨"May 2023", "AFG", some 200, none, none⟩

def tpInit : TimePeriod := ⟨default_enddate, default_date⟩

def witAnaAbsent : AnalysisNode := ⟨"Jan 2024", none, "t", witEmptyLoc, none, .absent⟩

def witAnaNull : AnalysisNode := ⟨"Jan 2024", none, "t", witEmptyLoc, none, .null⟩

def witGroup : GroupNode := ⟨"G1", witEmptyLoc, .null⟩

def witAnaGroups : AnalysisNode :=
  ⟨"Jan 2024", none, "t", witEmptyLoc, some [witGroup], .absent⟩

def witCfg : AdmConfig := ⟨[], [], [], ["XKX"], [], []⟩

def witMatcher : Matcher := fun _ _ _ => (("", ""), ("", ""), [])

def witHrpGho : String → Bool × Bool := fun _ => (true, false)

def witProjCols : ProjCols :=
  { fromDate := some "2024-01-01"
    toDate := some "2024-06-30"
    pops := ⟨some 100, none, none, none, none, some 5, none⟩
    pcts := emptyPhaseQ }

def witEmptyProjCols : ProjCols := ⟨none, none, emptyPhaseQ, emptyPhaseQ⟩

def witWideRow : WideRow :=
  { base := ⟨"Jan 2024", "AFG", some 200, some (some "G1"), none⟩
    cols := ⟨witProjCols, witEmptyProjCols, witEmptyProjCols⟩ }

def witWideRow2 : WideRow :=
  { base := ⟨"Mar 2024", "AFG", some 200, some (some "G1"), none⟩
    cols := ⟨{ witProjCols with pops := ⟨some 90, none, none, none, none, some 5, none⟩ },
             witEmptyProjCols, witEmptyProjCols⟩ }

def witCtx : RowCtx :=
  rowCtxOf witCfg witMatcher witHrpGho "ds" "r1" 1 witWideRow ⟨2024, 1, 1⟩

def witTables : List TableInput := [⟨1, "r1", [witWideRow, witWideRow2]⟩]

def witKey : PKey := ("AFG", "", "", some "G1", some "", "current", "2024-01-01")

def witVs : List DupEntry := [(1, 100, ⟨2024, 1, 1⟩), (2, 90, ⟨2024, 3, 1⟩)]

def witWideRowNP : WideRow :=
  { base := ⟨"Jan 2024", "AFG", some 200, some (some "G1"), none⟩
    cols := ⟨⟨none, none, ⟨some 50, none, none, none, none, none, none⟩, emptyPhaseQ⟩,
             witEmptyProjCols, witEmptyProjCols⟩ }

def witTables9 : List TableInput := [⟨1, "r1", [witWideRowNP]⟩]

def witAna5 : AnalysisNode := ⟨"May 2023", some 200, "t", witLoc, none, .null⟩

def witCountry : List AnalysisNode := [witAna5]

def witState : StateD := ⟨⟨2020, 1, 1⟩, [], none, none⟩

def witStateLate : StateD := ⟨⟨2020, 1, 1⟩, [("AFG", ⟨2024, 1, 1⟩)], none, none⟩

def witBundle : OutputBundle := ⟨emptyRowSets, emptyRowSets, default_enddate, default_date⟩

/-! ## Helper lemmas -/

theorem monthIndex_bounds (s : String) (m : Nat) (h : monthIndex s = some m) :
    1 ≤ m ∧ m ≤ 12 := by
  unfold monthIndex at h
  split_ifs at h <;> simp_all <;> omega

theorem daysInMonth12 (y : Nat) : daysInMonth y 12 = 31 := by
  simp [daysInMonth]

/-- `relativedelta(months=1, days=-1)` applied to the first of a month
lands on the last day of that month. -/
theorem monthEnd_eq (y m : Nat) (h1 : 1 ≤ m) (h2 : m ≤ 12) :
    subOneDay (addOneMonth ⟨y, m, 1⟩) = ⟨y, m, daysInMonth y m⟩ := by
  by_cases hm : m = 12
  · subst hm
    simp [addOneMonth, subOneDay, daysInMonth12]
  · have hm1 : m + 1 ≠ 1 := by omega
    simp [addOneMonth, subOneDay, hm, hm1]

/-- `parse_date_range` is `rangeOf` plus the `widen` side effect. -/
theorem parse_date_range_eq (s : String) (tp : TimePeriod) :
    parse_date_range s tp =
      (rangeOf s).map fun r => ((isoDate r.1, isoDate r.2), widen tp r) := by
  unfold parse_date_range rangeOf
  cases hsp : splitSep rangeSep s.data with
  | nil => simp
  | cons a t =>
    cases t with
    | nil => simp
    | cons b t2 =>
      cases t2 with
      | cons c t3 => simp
      | nil =>
        cases hp1 : parse_date (String.mk a) with
        | none => simp [hp1]
        | some sd =>
          cases hp2 : parse_date (String.mk b) with
          | none => simp [hp1, hp2]
          | some ed =>
            obtain ⟨ts, te⟩ := tp
            simp only [hp1, hp2, Option.bind_eq_bind, Option.some_bind, Option.map_some]
            refine congrArg some (Prod.ext rfl ?_)
            unfold widen
            split_ifs with hlt1 hlt2 hlt2
            · simp [min_eq_right hlt1.le, max_eq_right hlt2.le]
            · simp [min_eq_right hlt1.le, max_eq_left (not_lt.mp hlt2)]
            · simp [min_eq_left (not_lt.mp hlt1), max_eq_right hlt2.le]
            · simp [min_eq_left (not_lt.mp hlt1), max_eq_left (not_lt.mp hlt2)]

/-! ## C10 -/

/-- C10: for a country whose fetched analysis history is empty,
`get_country_data` returns `None` immediately and leaves the per-country
watermark, the global date window, and every accumulated output table
exactly as they were. -/
theorem c10_empty_history_is_noop (countryiso3 : String) (st : StateD)
    (out : OutputBundle) :
    get_country_data [] countryiso3 st out = some (none, st, out) := rfl

/-! ## C6 -/

/-- C6: for an input of the form `"Mon1 YYYY1 - Mon2 YYYY2"` with both
tokens parseable as `"%b %Y"`, `parse_date_range` returns ISO strings
for the first day of Mon1 YYYY1 and the last calendar day of Mon2 YYYY2
(one month forward, one day back); if either token fails to parse the
call fails. -/
theorem c6_parse_date_range_contract
    (s : String) (t1 t2 ms1 ys1 ms2 ys2 : List Char) (m1 y1 m2 y2 : Nat)
    (tp : TimePeriod)
    (hsplit : splitSep rangeSep s.data = [t1, t2])
    (h1 : splitSep [' '] t1 = [ms1, ys1])
    (h2 : splitSep [' '] t2 = [ms2, ys2])
    (hm1 : monthIndex (String.mk ms1) = some m1) (hy1 : parseYear4 ys1 = some y1)
    (hm2 : monthIndex (String.mk ms2) = some m2) (hy2 : parseYear4 ys2 = some y2) :
    (∃ tp2, parse_date_range s tp =
      some ((isoDate ⟨y1, m1, 1⟩, isoDate ⟨y2, m2, daysInMonth y2 m2⟩), tp2)) ∧
    (∀ (u : String) (a b : List Char) (tpu : TimePeriod),
      splitSep rangeSep u.data = [a, b] → parse_date (String.mk a) = none →
      parse_date_range u tpu = none) ∧
    (∀ (u : String) (a b : List Char) (tpu : TimePeriod),
      splitSep rangeSep u.data = [a, b] → parse_date (String.mk b) = none →
      parse_date_range u tpu = none) := by
  refine ⟨?_, ?_, ?_⟩
  · have hb := monthIndex_bounds _ _ hm2
    have hpd1 : parse_date (String.mk t1) = some ⟨y1, m1, 1⟩ := by
      simp [parse_date, h1, hm1, hy1]
    have hpd2 : parse_date (String.mk t2) = some ⟨y2, m2, 1⟩ := by
      simp [parse_date, h2, hm2, hy2]
    have hro : rangeOf s = some (⟨y1, m1, 1⟩, ⟨y2, m2, daysInMonth y2 m2⟩) := by
      simp [rangeOf, hsplit, hpd1, hpd2, monthEnd_eq y2 m2 hb.1 hb.2]
    exact ⟨_, by rw [parse_date_range_eq, hro]; rfl⟩
  · intro u a b tpu hspu hpa
    rw [parse_date_range_eq]
    simp [rangeOf, hspu, hpa]
  · intro u a b tpu hspu hpb
    rw [parse_date_range_eq]
    cases hpa : parse_date (String.mk a) <;> simp [rangeOf, hspu, hpa, hpb]

/-- C6 witness: the contract applied to `"May 2023 - Oct 2023"`. -/
theorem c6_witness :
    (∃ tp2, parse_date_range "May 2023 - Oct 2023" ⟨default_enddate, default_date⟩ =
      some (("2023-05-01", "2023-10-31"), tp2)) ∧
    parse_date_range "May 2023 - October 2023" ⟨default_enddate, default_date⟩ = none := by
  have h := c6_parse_date_range_contract "May 2023 - Oct 2023"
    "May 2023".data "Oct 2023".data "May".data "2023".data "Oct".data "2023".data
    5 2023 10 2023 ⟨default_enddate, default_date⟩
    (by decide) (by decide) (by decide) (by decide) (by decide) (by decide) (by decide)
  refine ⟨?_, ?_⟩
  · obtain ⟨tp2, htp⟩ := h.1
    exact ⟨tp2, by rw [htp]; rfl⟩
  · exact h.2.2 "May 2023 - October 2023" "May 2023".data "October 2023".data
      ⟨default_enddate, default_date⟩ (by decide) (by decide)

/-! ## C7 -/

/-- C7: for a country in the `adm2_in_level1` exception set (and, as the
configuration's per-country case tags are mutually exclusive, not in any
earlier-checked exception set), the admin classification yields admin
level 2, provider admin-2 name equal to the row's `Level 1` value, and
an empty provider admin-1 name, regardless of the `Area` value. -/
theorem c7_adm2_in_level1 (cfg : AdmConfig) (countryiso3 : String)
    (admin_level : Nat) (lvl area : Option String)
    (hin : countryiso3 ∈ cfg.adm2_in_level1)
    (h1 : countryiso3 ∉ cfg.adm1_only)
    (h2 : countryiso3 ∉ cfg.adm2_only)
    (h3 : countryiso3 ∉ cfg.adm2_only_include_adm1) :
    (classify_admins cfg countryiso3 admin_level lvl area).rowAdminLevel = 2 ∧
    (classify_admins cfg countryiso3 admin_level lvl area).provider2 = lvl ∧
    (classify_admins cfg countryiso3 admin_level lvl area).provider1 = some "" := by
  unfold classify_admins
  simp only [h1, h2, h3, hin, if_true, if_false, if_neg, if_pos]
  split <;> simp

/-- C7 witness: `Level 1 = "Districtname"`, `Area = None` for a country
configured as `adm2_in_level1`. -/
theorem c7_witness :
    (classify_admins ⟨[], [], [], ["XKX"], [], []⟩ "XKX" 1
        (some "Districtname") none).rowAdminLevel = 2 ∧
    (classify_admins ⟨[], [], [], ["XKX"], [], []⟩ "XKX" 1
        (some "Districtname") none).provider2 = some "Districtname" ∧
    (classify_admins ⟨[], [], [], ["XKX"], [], []⟩ "XKX" 1
        (some "Districtname") none).provider1 = some "" :=
  c7_adm2_in_level1 ⟨[], [], [], ["XKX"], [], []⟩ "XKX" 1 (some "Districtname") none
    (by decide) (by decide) (by decide) (by decide)

/-! ## RowBuilder lemmas (towards C1 and C5) -/

theorem countP_congr' {α : Type} (l : List α) (p q : α → Bool)
    (h : ∀ a ∈ l, p a = q a) : l.countP p = l.countP q := by
  induction l with
  | nil => rfl
  | cons c t ih =>
    rw [List.countP_cons, List.countP_cons, h c (List.mem_cons_self c t),
      ih fun a ha => h a (List.mem_cons_of_mem _ ha)]

theorem countP_filterMap_unique {α β : Type} (l : List α) (f : α → Option β)
    (q : β → Bool) (a0 : α) (ha : a0 ∈ l) (hnd : l.Nodup)
    (hq : ∀ a ∈ l, ∀ b, f a = some b → (q b = true ↔ a = a0)) :
    (l.filterMap f).countP q = if (f a0).isSome then 1 else 0 := by
  induction l with
  | nil => cases ha
  | cons c t ih =>
    rcases List.mem_cons.mp ha with hc | ht
    · subst hc
      have ht0 : ∀ b ∈ t.filterMap f, ¬(q b = true) := by
        intro b hb
        obtain ⟨a, hat, hfa⟩ := List.mem_filterMap.mp hb
        have hiff := hq a (List.mem_cons_of_mem _ hat) b hfa
        have hne : a ≠ a0 := fun he => (List.nodup_cons.mp hnd).1 (he ▸ hat)
        simp [hiff, hne]
      have hz : (t.filterMap f).countP q = 0 := List.countP_eq_zero.mpr ht0
      cases hf : f a0 with
      | none => simp [List.filterMap_cons, hf, hz]
      | some b =>
        have hqb : q b = true := (hq a0 (List.mem_cons_self a0 t) b hf).mpr rfl
        simp [List.filterMap_cons, hf, List.countP_cons, hqb, hz]
    · have hc0 : c ≠ a0 := by
        intro he; rw [he] at hnd
        exact (List.nodup_cons.mp hnd).1 ht
      have ihr := ih ht (List.nodup_cons.mp hnd).2
        fun a hat b hfa => hq a (List.mem_cons_of_mem _ hat) b hfa
      cases hf : f c with
      | none => simp [List.filterMap_cons, hf, ihr]
      | some b =>
        have hqb : ¬(q b = true) := by
          have hiff := hq c (List.mem_cons_self c t) b hf
          simp [hiff, hc0]
        simp [List.filterMap_cons, hf, List.countP_cons, hqb, ihr]

theorem PhaseKey.label_injective : ∀ a b : PhaseKey, a.label = b.label → a = b := by
  intro a b
  cases a <;> cases b <;> decide

theorem Projection.lowerName_injective :
    ∀ a b : Projection, a.lowerName = b.lowerName → a = b := by
  intro a b
  cases a <;> cases b <;> decide

theorem phaseKeys_nodup : phaseKeys.Nodup := by decide

theorem mem_phaseKeys : ∀ k : PhaseKey, k ∈ phaseKeys := by
  intro k; cases k <;> decide

theorem setEstimatedPct_pops (loc : Location) (p : Projection) :
    (loc.setEstimatedPct p).pops = loc.pops := rfl

theorem setEstimatedPct_get_estimated (loc : Location) (p : Projection) :
    (((loc.setEstimatedPct p).pcts.get p).get .estimated) = some 1 := by
  cases p <;> rfl

theorem buildProjection_spec (base : BaseRow) (ana : Location) (p : Projection)
    (loc : Location) (tp : TimePeriod) (ls : List LongRow) (cs : ProjCols)
    (tp2 : TimePeriod) (loc2 : Location)
    (h : buildProjection base ana p loc tp = some (ls, cs, tp2, loc2)) :
    loc2 = loc.setEstimatedPct p ∧
    tp2 = widenList tp (projRange ana p) ∧
    (∀ r ∈ ls, r.validityPeriod = p.lowerName) ∧
    (∀ k : PhaseKey,
      ls.countP (fun r => r.phase == k.label) =
        if ((loc.pops.get p).get k).isSome ∧ strTruthy (ana.periodDates.get p)
        then 1 else 0) ∧
    (∀ r ∈ ls, r.phase = "all" → r.percentage = some 1) := by
  unfold buildProjection at h
  by_cases hT : strTruthy (ana.periodDates.get p)
  · rw [if_pos hT] at h
    cases hpr : parse_date_range ((ana.periodDates.get p).getD "") tp with
    | none => rw [hpr] at h; simp at h
    | some v =>
      obtain ⟨⟨a, b⟩, tp1⟩ := v
      rw [hpr] at h
      simp only [Option.bind_eq_bind, Option.some_bind, Option.some.injEq,
        Prod.mk.injEq] at h
      obtain ⟨hls, _, htp, hloc⟩ := h
      have hro : ∃ r, rangeOf ((ana.periodDates.get p).getD "") = some r ∧
          tp1 = widen tp r := by
        rw [parse_date_range_eq] at hpr
        cases hval : rangeOf ((ana.periodDates.get p).getD "") with
        | none => rw [hval] at hpr; simp at hpr
        | some r =>
          rw [hval] at hpr
          simp only [Option.map, Option.some.injEq, Prod.mk.injEq] at hpr
          exact ⟨r, rfl, hpr.2.symm⟩
      obtain ⟨r0, hval, htp1⟩ := hro
      refine ⟨hloc.symm, ?_, ?_, ?_, ?_⟩
      · rw [← htp, htp1]
        unfold projRange
        rw [if_pos hT, hval]
        rfl
      · intro r hr
        rw [← hls] at hr
        obtain ⟨k, _, hfk⟩ := List.mem_filterMap.mp hr
        by_cases hc : (((loc.setEstimatedPct p).pops.get p).get k).isSome = true ∧
            strTruthy (ana.periodDates.get p) = true
        · rw [if_pos hc] at hfk
          cases hfk; rfl
        · rw [if_neg hc] at hfk; cases hfk
      · intro k
        rw [← hls]
        rw [countP_filterMap_unique phaseKeys _ _ k (mem_phaseKeys k) phaseKeys_nodup
          ?side]
        case side =>
          intro x hx rr hfr
          by_cases hcx : (((loc.setEstimatedPct p).pops.get p).get x).isSome = true ∧
              strTruthy (ana.periodDates.get p) = true
          · rw [if_pos hcx] at hfr
            cases hfr
            simp only [beq_iff_eq]
            exact ⟨fun hl => PhaseKey.label_injective x k hl, fun he => he ▸ rfl⟩
          · rw [if_neg hcx] at hfr; cases hfr
        by_cases hck : ((loc.pops.get p).get k).isSome = true ∧
            strTruthy (ana.periodDates.get p) = true
        · have hck' : (((loc.setEstimatedPct p).pops.get p).get k).isSome = true ∧
              strTruthy (ana.periodDates.get p) = true := hck
          rw [if_pos hck', if_pos hck]
          simp
        · have hck' : ¬((((loc.setEstimatedPct p).pops.get p).get k).isSome = true ∧
              strTruthy (ana.periodDates.get p) = true) := hck
          rw [if_neg hck', if_neg hck]
          simp
      · intro r hr hall
        rw [← hls] at hr
        obtain ⟨k, _, hfk⟩ := List.mem_filterMap.mp hr
        by_cases hc : (((loc.setEstimatedPct p).pops.get p).get k).isSome = true ∧
            strTruthy (ana.periodDates.get p) = true
        · rw [if_pos hc] at hfk
          have hk : k = .estimated := by
            apply PhaseKey.label_injective
            cases hfk
            exact hall
          subst hk
          cases hfk
          exact setEstimatedPct_get_estimated loc p
        · rw [if_neg hc] at hfk; cases hfk
  · rw [if_neg hT] at h
    simp only [Option.bind_eq_bind, Option.some_bind, Option.some.injEq,
      Prod.mk.injEq] at h
    obtain ⟨hls, _, htp, hloc⟩ := h
    have hempty : ls = [] := by
      rw [← hls]
      refine List.filterMap_eq_nil_iff.mpr fun k _ => ?_
      rw [if_neg]
      intro hc
      exact hT hc.2
    refine ⟨hloc.symm, ?_, ?_, ?_, ?_⟩
    · rw [← htp]
      unfold projRange
      rw [if_neg hT]
      rfl
    · intro r hr; rw [hempty] at hr; cases hr
    · intro k
      rw [hempty, if_neg]
      · rfl
      · intro hc; exact hT hc.2
    · intro r hr; rw [hempty] at hr; cases hr

theorem widenList_append (tp : TimePeriod) (a b : List (Date × Date)) :
    widenList tp (a ++ b) = widenList (widenList tp a) b := by
  unfold widenList
  rw [List.foldl_append]

theorem block_countP (p q : Projection) (k : PhaseKey) (n : Nat) (ls : List LongRow)
    (hv : ∀ r ∈ ls, r.validityPeriod = q.lowerName)
    (hcount : ls.countP (fun r => r.phase == k.label) = n) :
    ls.countP (fun r => r.validityPeriod == p.lowerName && r.phase == k.label) =
      if q = p then n else 0 := by
  by_cases hqp : q = p
  · subst hqp
    rw [if_pos rfl, ← hcount]
    apply countP_congr'
    intro r hr
    rw [hv r hr]
    simp
  · rw [if_neg hqp]
    refine List.countP_eq_zero.mpr fun r hr => ?_
    rw [hv r hr]
    have : ¬(q.lowerName = p.lowerName) := fun he =>
      hqp (Projection.lowerName_injective q p he)
    simp [this]

/-- All the facts about one `add_country_subnational_rows` call used by
the claims: the appended long rows with their per-(projection, phase)
counts and `all`-percentage, the single appended wide row, and the
time-period effect. -/
theorem acsr_spec (base_row : BaseRow) (tp : TimePeriod) (location : Location)
    (rows : List LongRow) (rows_wide : List WideRow) (analysis : Option Location)
    (rows2 : List LongRow) (rows_wide2 : List WideRow) (tp2 : TimePeriod)
    (loc2 : Location)
    (h : add_country_subnational_rows base_row tp location rows rows_wide analysis =
      some (rows2, rows_wide2, tp2, loc2)) :
    (∃ newRows, rows2 = rows ++ newRows ∧
      (∀ (p : Projection) (k : PhaseKey),
        newRows.countP
            (fun r => r.validityPeriod == p.lowerName && r.phase == k.label) =
          if ((location.pops.get p).get k).isSome ∧
              strTruthy ((analysis.getD location).periodDates.get p)
          then 1 else 0) ∧
      (∀ r ∈ newRows, r.phase = "all" → r.percentage = some 1)) ∧
    (∃ w, rows_wide2 = rows_wide ++ [w]) ∧
    tp2 = widenList tp (anaRangesT (analysis.getD location)) := by
  unfold add_country_subnational_rows at h
  simp only [] at h
  cases h1 : buildProjection base_row (analysis.getD location) .current location tp with
  | none => rw [h1] at h; simp at h
  | some v1 =>
    obtain ⟨l1, c1, tp1, loc1⟩ := v1
    rw [h1] at h
    simp only [Option.bind_eq_bind, Option.some_bind] at h
    cases h2 : buildProjection base_row (analysis.getD location) .first loc1 tp1 with
    | none => rw [h2] at h; simp at h
    | some v2 =>
      obtain ⟨l2, c2, tp2x, loc2x⟩ := v2
      rw [h2] at h
      simp only [Option.bind_eq_bind, Option.some_bind] at h
      cases h3 : buildProjection base_row (analysis.getD location) .second loc2x tp2x with
      | none => rw [h3] at h; simp at h
      | some v3 =>
        obtain ⟨l3, c3, tp3x, loc3x⟩ := v3
        rw [h3] at h
        simp only [Option.bind_eq_bind, Option.some_bind, Option.some.injEq,
          Prod.mk.injEq] at h
        obtain ⟨hrows, hwide, htp, _⟩ := h
        obtain ⟨hL1, hT1, hV1, hC1, hP1⟩ := buildProjection_spec _ _ _ _ _ _ _ _ _ h1
        obtain ⟨hL2, hT2, hV2, hC2, hP2⟩ := buildProjection_spec _ _ _ _ _ _ _ _ _ h2
        obtain ⟨hL3, hT3, hV3, hC3, hP3⟩ := buildProjection_spec _ _ _ _ _ _ _ _ _ h3
        have hpops1 : loc1.pops = location.pops := by rw [hL1]; rfl
        have hpops2 : loc2x.pops = location.pops := by rw [hL2, setEstimatedPct_pops, hpops1]
        refine ⟨⟨l1 ++ (l2 ++ l3), hrows.symm, ?_, ?_⟩, ⟨_, hwide.symm⟩, ?_⟩
        · intro p k
          rw [List.countP_append, List.countP_append]
          rw [block_countP p .current k _ l1 hV1 (hC1 k)]
          rw [block_countP p .first k _ l2 hV2 (hC2 k)]
          rw [block_countP p .second k _ l3 hV3 (hC3 k)]
          rw [hpops1] at hC2
          rw [hpops2] at hC3
          cases p <;> simp [hpops1, hpops2]
        · intro r hr
          rcases List.mem_append.mp hr with hr1 | hr23
          · exact hP1 r hr1
          · rcases List.mem_append.mp hr23 with hr2 | hr3
            · exact hP2 r hr2
            · exact hP3 r hr3
        · rw [← htp, hT3, hT2, hT1]
          unfold anaRangesT
          rw [widenList_append, widenList_append]
/-! ## C1 -/

/-- C1: for every successful RowBuilder call, and for each of the 3
projections and 7 phases, exactly one long-form row for that (location,
projection, phase) triple is appended to `rows` iff the phase's
population value read from the location is non-`None` and the
projection's period-dates string is present (non-empty); and exactly
one wide-form row is appended to `rows_wide` per call. -/
theorem c1_rowbuilder (base_row : BaseRow) (tp : TimePeriod) (location : Location)
    (rows : List LongRow) (rows_wide : List WideRow) (analysis : Option Location)
    (rows2 : List LongRow) (rows_wide2 : List WideRow) (tp2 : TimePeriod)
    (loc2 : Location)
    (h : add_country_subnational_rows base_row tp location rows rows_wide analysis =
      some (rows2, rows_wide2, tp2, loc2)) :
    (∃ newRows, rows2 = rows ++ newRows ∧
      ∀ (p : Projection) (k : PhaseKey),
        newRows.countP
            (fun r => r.validityPeriod == p.lowerName && r.phase == k.label) =
          if ((location.pops.get p).get k).isSome ∧
              strTruthy ((analysis.getD location).periodDates.get p)
          then 1 else 0) ∧
    ∃ w, rows_wide2 = rows_wide ++ [w] := by
  obtain ⟨⟨nr, hnr, hcount, _⟩, hw, _⟩ :=
    acsr_spec base_row tp location rows rows_wide analysis rows2 rows_wide2 tp2 loc2 h
  exact ⟨⟨nr, hnr, hcount⟩, hw⟩

/-- C1 witness: a location with a populated current period, a populated
phase-4 value and nothing else. -/
theorem c1_witness :
    ∃ (rows2 : List LongRow) (rows_wide2 : List WideRow) (tp2 : TimePeriod)
      (loc2 : Location),
      add_country_subnational_rows witBase tpInit witLoc [] [] none =
        some (rows2, rows_wide2, tp2, loc2) ∧
      ((∃ newRows, rows2 = [] ++ newRows ∧
        ∀ (p : Projection) (k : PhaseKey),
          newRows.countP
              (fun r => r.validityPeriod == p.lowerName && r.phase == k.label) =
            if ((witLoc.pops.get p).get k).isSome ∧
                strTruthy (((none : Option Location).getD witLoc).periodDates.get p)
            then 1 else 0) ∧
      ∃ w, rows_wide2 = [] ++ [w]) := by
  obtain ⟨⟨r2, w2, t2, l2⟩, hout⟩ :
      ∃ o, add_country_subnational_rows witBase tpInit witLoc [] [] none = some o :=
    ⟨_, rfl⟩
  exact ⟨r2, w2, t2, l2, hout,
    c1_rowbuilder witBase tpInit witLoc [] [] none r2 w2 t2 l2 hout⟩

/-! ## C8 -/

/-- C8 counterexample: an analysis with no groups whose `areas` key is
absent makes `add_subnational_rows` raise a `KeyError` (modelled as
`none`), so "absent or None ... does not raise" fails for the
absent-under-the-analysis case. -/
theorem c8_counterexample :
    add_subnational_rows witAnaAbsent "AFG" tpInit [] [] [] [] = none := rfl

theorem processGroupList_no_areas (analysis : AnalysisNode) (base_row : BaseRow) :
    ∀ (gl : List GroupNode) (tp : TimePeriod) (gr : List LongRow)
      (gw : List WideRow) (ar : List LongRow) (aw : List WideRow) out,
      (∀ g ∈ gl, g.areas = .absent ∨ g.areas = .null) →
      processGroupList analysis base_row gl tp gr gw ar aw = some out →
      out.2.2.1 = ar ∧ out.2.2.2.1 = aw := by
  intro gl
  induction gl with
  | nil =>
    intro tp gr gw ar aw out _ h
    cases h
    exact ⟨rfl, rfl⟩
  | cons g rest ih =>
    intro tp gr gw ar aw out hareas h
    unfold processGroupList at h
    simp only [] at h
    cases h1 : add_country_subnational_rows
        { base_row with level1 := some (some g.name) } tp g.loc gr gw
        (some analysis.loc) with
    | none => rw [h1] at h; simp at h
    | some v1 =>
      obtain ⟨gr1, gw1, tp1, lx⟩ := v1
      rw [h1] at h
      simp only [Option.bind_eq_bind, Option.some_bind] at h
      rcases hareas g (List.mem_cons_self g rest) with hab | hnu
      · rw [hab] at h
        simp only [ne_eq, not_true_eq_false, if_false] at h
        exact ih tp1 gr1 gw1 ar aw out
          (fun g2 hg2 => hareas g2 (List.mem_cons_of_mem _ hg2)) h
      · rw [hnu] at h
        simp only [ne_eq, reduceCtorEq, not_false_eq_true, if_true, processAreas,
          Option.some_bind] at h
        exact ih tp1 gr1 gw1 ar aw out
          (fun g2 hg2 => hareas g2 (List.mem_cons_of_mem _ hg2)) h

/-- C8 amended: a present-but-`None` `areas` field is always tolerated
(logged and skipped, no area rows emitted), and a group's absent
`areas` key is skipped silently; but when an analysis has no groups and
its own `areas` key is absent, `adm["areas"]` raises `KeyError`
(see the counterexample), so "absent" is only safe under a group. -/
theorem c8_amended (analysis : AnalysisNode) (countryiso3 : String) (tp : TimePeriod)
    (group_rows : List LongRow) (group_rows_wide : List WideRow)
    (area_rows : List LongRow) (area_rows_wide : List WideRow) :
    ((analysis.groups = none ∨ analysis.groups = some []) → analysis.areas = .null →
      add_subnational_rows analysis countryiso3 tp group_rows group_rows_wide
        area_rows area_rows_wide =
        some (group_rows, group_rows_wide, area_rows, area_rows_wide, tp)) ∧
    (∀ out g gs, analysis.groups = some (g :: gs) →
      (∀ g2 ∈ g :: gs, g2.areas = .absent ∨ g2.areas = .null) →
      add_subnational_rows analysis countryiso3 tp group_rows group_rows_wide
        area_rows area_rows_wide = some out →
      out.2.2.1 = area_rows ∧ out.2.2.2.1 = area_rows_wide) := by
  constructor
  · intro hg hnull
    unfold add_subnational_rows
    rcases hg with hg | hg <;>
      rw [hg, hnull] <;> rfl
  · intro out g gs hgl hareas h
    unfold add_subnational_rows at h
    rw [hgl] at h
    exact processGroupList_no_areas analysis (get_base_row analysis countryiso3)
      (g :: gs) tp group_rows group_rows_wide area_rows area_rows_wide out
      hareas h

/-- C8 witness: the amended claim applied to an analysis with a
`null` areas field and to a group with a `null` areas field. -/
theorem c8_witness :
    (add_subnational_rows witAnaNull "AFG" tpInit [] [] [] [] =
      some ([], [], [], [], tpInit)) ∧
    (∃ out, add_subnational_rows witAnaGroups "AFG" tpInit [] [] [] [] = some out ∧
      out.2.2.1 = ([] : List LongRow) ∧ out.2.2.2.1 = ([] : List WideRow)) := by
  constructor
  · exact (c8_amended witAnaNull "AFG" tpInit [] [] [] []).1 (Or.inl rfl) rfl
  · obtain ⟨out, hout⟩ :
        ∃ o, add_subnational_rows witAnaGroups "AFG" tpInit [] [] [] [] = some o :=
      ⟨_, rfl⟩
    exact ⟨out, hout,
      (c8_amended witAnaGroups "AFG" tpInit [] [] [] []).2 out witGroup [] rfl
        (by intro g hg; simp only [List.mem_singleton] at hg; subst hg; exact Or.inr rfl)
        hout⟩

/-! ## HAPI generation lemmas (towards C5, C2, C9) -/

theorem hapiPhaseRows_all (ctx : RowCtx) (pc : ProjCols) (popA : ℚ) (p : Projection)
    (tps tpe : Option String) (err : String) (id : Nat) :
    ∀ r ∈ hapiPhaseRows ctx pc popA p tps tpe err id,
      r.ipc_phase = "all" →
      r.population_fraction_in_phase = some 1 ∧ r.population_in_phase = popA := by
  intro r hr hall
  unfold hapiPhaseRows at hr
  obtain ⟨ph, _, hfr⟩ := List.mem_filterMap.mp hr
  simp only [] at hfr
  by_cases hp : ph = "all"
  · subst hp
    simp only [if_pos rfl, if_true, Option.map, Option.some.injEq] at hfr
    rw [← hfr]
    exact ⟨rfl, rfl⟩
  · rw [if_neg hp, if_neg hp] at hfr
    cases hpop : pc.pops.get (phaseKeyOfLabel ph) with
    | none => rw [hpop] at hfr; cases hfr
    | some v =>
      rw [hpop] at hfr
      simp only [Option.map, Option.some.injEq] at hfr
      rw [← hfr] at hall
      exact absurd hall hp

theorem projLoopStep_pred (P : HapiRow → Prop)
    (hP : ∀ (ctx : RowCtx) (pc : ProjCols) (popA : ℚ) (p : Projection)
      (tps tpe : Option String) (err : String) (id : Nat) (r : HapiRow),
      r ∈ hapiPhaseRows ctx pc popA p tps tpe err id → P r)
    (ctx : RowCtx) (cols : ProjVec ProjCols) (p : Projection) (g g2 : GenState)
    (h : projLoopStep ctx cols p g = some g2)
    (hg : ∀ r ∈ g.hapiRows, P r) : ∀ r ∈ g2.hapiRows, P r := by
  unfold projLoopStep at h
  simp only [] at h
  cases hpop : (cols.get p).pops.estimated with
  | none =>
    rw [hpop] at h
    cases h
    exact hg
  | some popA =>
    rw [hpop] at h
    simp only [] at h
    cases hfrom : (cols.get p).fromDate with
    | none =>
      rw [hfrom] at h
      cases h
      intro r hr
      rcases List.mem_append.mp hr with h1 | h2
      · exact hg r h1
      · exact hP _ _ _ _ _ _ _ _ r h2
    | some fs =>
      rw [hfrom] at h
      simp only [] at h
      cases h1 : isoParse fs with
      | none => rw [h1] at h; simp at h
      | some fd =>
        rw [h1] at h
        simp only [Option.bind_eq_bind, Option.some_bind] at h
        cases h2 : (cols.get p).toDate with
        | none => rw [h2] at h; simp at h
        | some tos =>
          rw [h2] at h
          simp only [Option.some_bind] at h
          cases h3 : isoParse tos with
          | none => rw [h3] at h; simp at h
          | some td =>
            rw [h3] at h
            simp only [Option.some_bind, Option.some.injEq] at h
            subst h
            intro r hr
            rcases List.mem_append.mp hr with hh1 | hh2
            · exact hg r hh1
            · exact hP _ _ _ _ _ _ _ _ r hh2

theorem rowStep_pred (P : HapiRow → Prop)
    (hP : ∀ (ctx : RowCtx) (pc : ProjCols) (popA : ℚ) (p : Projection)
      (tps tpe : Option String) (err : String) (id : Nat) (r : HapiRow),
      r ∈ hapiPhaseRows ctx pc popA p tps tpe err id → P r)
    (cfg : AdmConfig) (matcher : Matcher) (hrpGho : String → Bool × Bool)
    (dsId rsId : String) (lvl : Nat) (wr : WideRow) (g g2 : GenState)
    (h : rowStep cfg matcher hrpGho dsId rsId lvl wr g = some g2)
    (hg : ∀ r ∈ g.hapiRows, P r) : ∀ r ∈ g2.hapiRows, P r := by
  unfold rowStep at h
  simp only [] at h
  cases hd : parse_date wr.base.dateOfAnalysis with
  | none => rw [hd] at h; simp at h
  | some doa =>
    rw [hd] at h
    simp only [Option.bind_eq_bind, Option.some_bind] at h
    cases hq1 : projLoopStep (rowCtxOf cfg matcher hrpGho dsId rsId lvl wr doa)
        wr.cols .current g with
    | none => rw [hq1] at h; simp at h
    | some ga =>
      rw [hq1] at h
      simp only [Option.some_bind] at h
      cases hq2 : projLoopStep (rowCtxOf cfg matcher hrpGho dsId rsId lvl wr doa)
          wr.cols .first ga with
      | none => rw [hq2] at h; simp at h
      | some gb =>
        rw [hq2] at h
        simp only [Option.some_bind] at h
        exact projLoopStep_pred P hP _ _ _ _ _ h
          (projLoopStep_pred P hP _ _ _ _ _ hq2
            (projLoopStep_pred P hP _ _ _ _ _ hq1 hg))

theorem genRows_pred (P : HapiRow → Prop)
    (hP : ∀ (ctx : RowCtx) (pc : ProjCols) (popA : ℚ) (p : Projection)
      (tps tpe : Option String) (err : String) (id : Nat) (r : HapiRow),
      r ∈ hapiPhaseRows ctx pc popA p tps tpe err id → P r)
    (cfg : AdmConfig) (matcher : Matcher) (hrpGho : String → Bool × Bool)
    (dsId rsId : String) (lvl : Nat) :
    ∀ (l : List WideRow) (g g2 : GenState),
      genRows cfg matcher hrpGho dsId rsId lvl l g = some g2 →
      (∀ r ∈ g.hapiRows, P r) → ∀ r ∈ g2.hapiRows, P r := by
  intro l
  induction l with
  | nil =>
    intro g g2 h hg
    cases h
    exact hg
  | cons wr rest ih =>
    intro g g2 h hg
    unfold genRows at h
    cases h1 : rowStep cfg matcher hrpGho dsId rsId lvl wr g with
    | none => rw [h1] at h; simp at h
    | some ga =>
      rw [h1] at h
      simp only [Option.bind_eq_bind, Option.some_bind] at h
      exact ih ga g2 h (rowStep_pred P hP _ _ _ _ _ _ _ _ _ h1 hg)

theorem genTables_pred (P : HapiRow → Prop)
    (hP : ∀ (ctx : RowCtx) (pc : ProjCols) (popA : ℚ) (p : Projection)
      (tps tpe : Option String) (err : String) (id : Nat) (r : HapiRow),
      r ∈ hapiPhaseRows ctx pc popA p tps tpe err id → P r)
    (cfg : AdmConfig) (matcher : Matcher) (hrpGho : String → Bool × Bool)
    (dsId : String) :
    ∀ (ts : List TableInput) (g g2 : GenState),
      genTables cfg matcher hrpGho dsId ts g = some g2 →
      (∀ r ∈ g.hapiRows, P r) → ∀ r ∈ g2.hapiRows, P r := by
  intro ts
  induction ts with
  | nil =>
    intro g g2 h hg
    cases h
    exact hg
  | cons t rest ih =>
    intro g g2 h hg
    unfold genTables at h
    cases h1 : genRows cfg matcher hrpGho dsId t.resourceId t.adminLevel t.rows g with
    | none => rw [h1] at h; simp at h
    | some ga =>
      rw [h1] at h
      simp only [Option.bind_eq_bind, Option.some_bind] at h
      exact ih ga g2 h (genRows_pred P hP _ _ _ _ _ _ _ _ _ h1 hg)

theorem markRow_fields (d : Marks) (r : HapiRow) :
    (markRow d r).ipc_phase = r.ipc_phase ∧
    (markRow d r).population_fraction_in_phase = r.population_fraction_in_phase ∧
    (markRow d r).analysis_id = r.analysis_id ∧
    (markRow d r).population_in_phase = r.population_in_phase := by
  unfold markRow
  cases getMark d r.analysis_id <;> exact ⟨rfl, rfl, rfl, rfl⟩

/-! ## C5 -/

/-- C5: the synthesized `all`/`estimated` phase percentage is exactly 1.
First conjunct: every long row appended by a successful RowBuilder call
with Phase `"all"` carries Percentage 1.  Second conjunct: every HAPI
phase row with `ipc_phase` `"all"` carries
`population_fraction_in_phase` 1 and `population_in_phase` equal to the
projection's analyzed population (the `popA` read from the `Population
analyzed` column).  Third conjunct: every row of a successful
`process_data` output with `ipc_phase` `"all"` has
`population_fraction_in_phase` 1. -/
theorem c5_all_phase_percentage :
    (∀ (base_row : BaseRow) (tp : TimePeriod) (location : Location)
      (rows : List LongRow) (rows_wide : List WideRow) (analysis : Option Location)
      (rows2 : List LongRow) (rows_wide2 : List WideRow) (tp2 : TimePeriod)
      (loc2 : Location),
      add_country_subnational_rows base_row tp location rows rows_wide analysis =
        some (rows2, rows_wide2, tp2, loc2) →
      ∃ newRows, rows2 = rows ++ newRows ∧
        ∀ r ∈ newRows, r.phase = "all" → r.percentage = some 1) ∧
    (∀ (ctx : RowCtx) (pc : ProjCols) (popA : ℚ) (p : Projection)
      (tps tpe : Option String) (err : String) (id : Nat),
      ∀ r ∈ hapiPhaseRows ctx pc popA p tps tpe err id,
        r.ipc_phase = "all" →
        r.population_fraction_in_phase = some 1 ∧ r.population_in_phase = popA) ∧
    (∀ (cfg : AdmConfig) (matcher : Matcher) (hrpGho : String → Bool × Bool)
      (dsId : String) (tables : List TableInput) (out : List HapiRow),
      process_data cfg matcher hrpGho dsId tables = some out →
      ∀ r ∈ out, r.ipc_phase = "all" → r.population_fraction_in_phase = some 1) := by
  refine ⟨?_, hapiPhaseRows_all, ?_⟩
  · intro base_row tp location rows rows_wide analysis rows2 rows_wide2 tp2 loc2 h
    obtain ⟨⟨nr, hnr, _, hall⟩, _, _⟩ :=
      acsr_spec base_row tp location rows rows_wide analysis rows2 rows_wide2 tp2
        loc2 h
    exact ⟨nr, hnr, hall⟩
  · intro cfg matcher hrpGho dsId tables out hpd r hr
    unfold process_data at hpd
    cases hgen : genTables cfg matcher hrpGho dsId tables ⟨[], [], 0⟩ with
    | none => rw [hgen] at hpd; simp at hpd
    | some g =>
      rw [hgen] at hpd
      simp only [Option.bind_eq_bind, Option.some_bind, Option.some.injEq] at hpd
      subst hpd
      have hrowsP := genTables_pred
        (fun r => r.ipc_phase = "all" → r.population_fraction_in_phase = some 1)
        (fun ctx pc popA p tps tpe err id r hr hall =>
          (hapiPhaseRows_all ctx pc popA p tps tpe err id r hr hall).1)
        cfg matcher hrpGho dsId tables _ _ hgen (by intro r hr; cases hr)
      obtain ⟨r0, hr0, hmk⟩ := List.mem_map.mp hr
      intro hall
      have hfield := markRow_fields (findDuplicates g.dc) r0
      rw [← hmk]
      rw [hfield.2.1]
      apply hrowsP r0 hr0
      rw [← hfield.1, hmk]
      exact hall

/-- C5 witness: the three conjuncts applied at concrete inputs. -/
theorem c5_witness :
    (∃ (rows2 : List LongRow) (rows_wide2 : List WideRow) (tp2 : TimePeriod)
      (loc2 : Location),
      add_country_subnational_rows witBase tpInit witLoc [] [] none =
        some (rows2, rows_wide2, tp2, loc2) ∧
      ∃ newRows, rows2 = [] ++ newRows ∧
        ∀ r ∈ newRows, r.phase = "all" → r.percentage = some 1) ∧
    (∀ r ∈ hapiPhaseRows witCtx witProjCols 100 .current
        (some "2024-01-01") (some "2024-06-30") "" 1,
      r.ipc_phase = "all" →
      r.population_fraction_in_phase = some 1 ∧ r.population_in_phase = 100) ∧
    (∃ out, process_data witCfg witMatcher witHrpGho "ds" witTables = some out ∧
      ∀ r ∈ out, r.ipc_phase = "all" → r.population_fraction_in_phase = some 1) := by
  refine ⟨?_, ?_, ?_⟩
  · obtain ⟨⟨r2, w2, t2, l2⟩, hout⟩ :
        ∃ o, add_country_subnational_rows witBase tpInit witLoc [] [] none = some o :=
      ⟨_, rfl⟩
    obtain ⟨nr, hnr, hall⟩ :=
      c5_all_phase_percentage.1 witBase tpInit witLoc [] [] none r2 w2 t2 l2 hout
    exact ⟨r2, w2, t2, l2, hout, nr, hnr, hall⟩
  · exact c5_all_phase_percentage.2.1 witCtx witProjCols 100 .current
      (some "2024-01-01") (some "2024-06-30") "" 1
  · obtain ⟨out, hout⟩ :
        ∃ o, process_data witCfg witMatcher witHrpGho "ds" witTables = some o :=
      ⟨_, rfl⟩
    exact ⟨out, hout, c5_all_phase_percentage.2.2 witCfg witMatcher witHrpGho "ds"
      witTables out hout⟩

/-! ## Fold min/max lemmas (towards C4) -/

theorem foldl_min_comm {α : Type} [LinearOrder α] (l : List α) :
    ∀ (s x : α), List.foldl min (min s x) l = min (List.foldl min s l) x := by
  induction l with
  | nil => intro s x; rfl
  | cons a t ih =>
    intro s x
    show List.foldl min (min (min s x) a) t = min (List.foldl min (min s a) t) x
    rw [min_right_comm s x a, ih (min s a) x]

theorem foldl_min_le_self {α : Type} [LinearOrder α] (l : List α) :
    ∀ s : α, List.foldl min s l ≤ s := by
  induction l with
  | nil => intro s; exact le_refl s
  | cons a t ih =>
    intro s
    exact le_trans (ih (min s a)) (min_le_left s a)

theorem foldl_min_le_mem {α : Type} [LinearOrder α] (l : List α) :
    ∀ s x, x ∈ l → List.foldl min s l ≤ x := by
  induction l with
  | nil => intro s x hx; cases hx
  | cons a t ih =>
    intro s x hx
    rcases List.mem_cons.mp hx with rfl | hxt
    · exact le_trans (foldl_min_le_self t (min s x)) (min_le_right s x)
    · exact ih (min s a) x hxt

theorem foldl_min_absorb {α : Type} [LinearOrder α] (l : List α) :
    ∀ s : α, (∀ x ∈ l, s ≤ x) → List.foldl min s l = s := by
  induction l with
  | nil => intro s _; rfl
  | cons a t ih =>
    intro s hs
    show List.foldl min (min s a) t = s
    rw [min_eq_left (hs a (List.mem_cons_self a t))]
    exact ih s fun x hx => hs x (List.mem_cons_of_mem _ hx)

theorem foldl_min_idem {α : Type} [LinearOrder α] (l : List α) (s : α) :
    List.foldl min (List.foldl min s l) l = List.foldl min s l :=
  foldl_min_absorb l _ fun x hx => foldl_min_le_mem l s x hx

theorem foldl_min_sub {α : Type} [LinearOrder α] (l1 l2 : List α)
    (hsub : ∀ x ∈ l1, x ∈ l2) :
    ∀ s : α, List.foldl min (List.foldl min s l1) l2 = List.foldl min s l2 := by
  induction l1 with
  | nil => intro s; rfl
  | cons a t ih =>
    intro s
    show List.foldl min (List.foldl min (min s a) t) l2 = _
    rw [ih (fun x hx => hsub x (List.mem_cons_of_mem _ hx)) (min s a)]
    rw [foldl_min_comm l2 s a]
    exact min_eq_left (foldl_min_le_mem l2 s a (hsub a (List.mem_cons_self a t)))

theorem min_foldl {α : Type} [LinearOrder α] (l : List α) :
    ∀ (b s : α), b ≤ s → min b (List.foldl min s l) = List.foldl min b l := by
  induction l with
  | nil => intro b s h; exact min_eq_left h
  | cons a t ih =>
    intro b s h
    show min b (List.foldl min (min s a) t) = List.foldl min (min b a) t
    rw [foldl_min_comm t s a, foldl_min_comm t b a, ← min_assoc b, ih b s h]

theorem foldl_max_comm {α : Type} [LinearOrder α] (l : List α) :
    ∀ (s x : α), List.foldl max (max s x) l = max (List.foldl max s l) x := by
  induction l with
  | nil => intro s x; rfl
  | cons a t ih =>
    intro s x
    show List.foldl max (max (max s x) a) t = max (List.foldl max (max s a) t) x
    rw [max_assoc s x a, max_comm x a, ← max_assoc s a x, ih (max s a) x]

theorem foldl_max_ge_self {α : Type} [LinearOrder α] (l : List α) :
    ∀ s : α, s ≤ List.foldl max s l := by
  induction l with
  | nil => intro s; exact le_refl s
  | cons a t ih =>
    intro s
    exact le_trans (le_max_left s a) (ih (max s a))

theorem foldl_max_ge_mem {α : Type} [LinearOrder α] (l : List α) :
    ∀ s x, x ∈ l → x ≤ List.foldl max s l := by
  induction l with
  | nil => intro s x hx; cases hx
  | cons a t ih =>
    intro s x hx
    rcases List.mem_cons.mp hx with rfl | hxt
    · exact le_trans (le_max_right s x) (foldl_max_ge_self t (max s x))
    · exact ih (max s a) x hxt

theorem foldl_max_absorb {α : Type} [LinearOrder α] (l : List α) :
    ∀ s : α, (∀ x ∈ l, x ≤ s) → List.foldl max s l = s := by
  induction l with
  | nil => intro s _; rfl
  | cons a t ih =>
    intro s hs
    show List.foldl max (max s a) t = s
    rw [max_eq_left (hs a (List.mem_cons_self a t))]
    exact ih s fun x hx => hs x (List.mem_cons_of_mem _ hx)

theorem foldl_max_idem {α : Type} [LinearOrder α] (l : List α) (s : α) :
    List.foldl max (List.foldl max s l) l = List.foldl max s l :=
  foldl_max_absorb l _ fun x hx => foldl_max_ge_mem l s x hx

theorem foldl_max_sub {α : Type} [LinearOrder α] (l1 l2 : List α)
    (hsub : ∀ x ∈ l1, x ∈ l2) :
    ∀ s : α, List.foldl max (List.foldl max s l1) l2 = List.foldl max s l2 := by
  induction l1 with
  | nil => intro s; rfl
  | cons a t ih =>
    intro s
    show List.foldl max (List.foldl max (max s a) t) l2 = _
    rw [ih (fun x hx => hsub x (List.mem_cons_of_mem _ hx)) (max s a)]
    rw [foldl_max_comm l2 s a]
    exact max_eq_left (foldl_max_ge_mem l2 s a (hsub a (List.mem_cons_self a t)))

theorem max_foldl {α : Type} [LinearOrder α] (l : List α) :
    ∀ (b s : α), s ≤ b → max b (List.foldl max s l) = List.foldl max b l := by
  induction l with
  | nil => intro b s h; exact max_eq_left h
  | cons a t ih =>
    intro b s h
    show max b (List.foldl max (max s a) t) = List.foldl max (max b a) t
    rw [foldl_max_comm t s a, foldl_max_comm t b a, ← max_assoc b, ih b s h]

/-! ## Time-period algebra -/

theorem timePeriod_eq (a b : TimePeriod) (h1 : a.start_date = b.start_date)
    (h2 : a.end_date = b.end_date) : a = b := by
  cases a; cases b; cases h1; cases h2; rfl

theorem widenList_start (rs : List (Date × Date)) :
    ∀ tp : TimePeriod,
      (widenList tp rs).start_date = List.foldl min tp.start_date (rs.map Prod.fst) := by
  induction rs with
  | nil => intro tp; rfl
  | cons r t ih =>
    intro tp
    show (widenList (widen tp r) t).start_date = _
    rw [ih (widen tp r)]
    rfl

theorem widenList_end (rs : List (Date × Date)) :
    ∀ tp : TimePeriod,
      (widenList tp rs).end_date = List.foldl max tp.end_date (rs.map Prod.snd) := by
  induction rs with
  | nil => intro tp; rfl
  | cons r t ih =>
    intro tp
    show (widenList (widen tp r) t).end_date = _
    rw [ih (widen tp r)]
    rfl

theorem widenList_idem (tp : TimePeriod) (rs : List (Date × Date)) :
    widenList (widenList tp rs) rs = widenList tp rs := by
  refine timePeriod_eq _ _ ?_ ?_
  · rw [widenList_start, widenList_start, foldl_min_idem]
  · rw [widenList_end, widenList_end, foldl_max_idem]

/-! ## Walk effects (towards C4 and C3)

Every `add_country_subnational_rows` call issued while walking one
analysis draws its period strings from the same analysis node, so each
call widens the shared time period with the same range list; walking is
therefore idempotent on an already-widened period. -/

theorem processAreaList_tp (analysis : AnalysisNode) (adm_row : BaseRow) :
    ∀ (l : List AreaNode) (tp : TimePeriod) (ar : List LongRow) (aw : List WideRow)
      (out : List LongRow × List WideRow × TimePeriod),
      processAreaList analysis adm_row l tp ar aw = some out →
      widenList tp (anaRangesT analysis.loc) = tp →
      out.2.2 = tp := by
  intro l
  induction l with
  | nil =>
    intro tp ar aw out h _
    cases h
    rfl
  | cons area rest ih =>
    intro tp ar aw out h hclosed
    unfold processAreaList at h
    simp only [Option.bind_eq_bind, bind, Option.bind_eq_some] at h
    obtain ⟨⟨r1, w1, tp1, lx⟩, h1, h⟩ := h
    have hTp := (acsr_spec _ _ _ _ _ _ _ _ _ _ h1).2.2
    simp only [Option.getD_some] at hTp
    rw [hTp, hclosed] at h
    exact ih tp r1 w1 out h hclosed

theorem processAreas_tp (analysis : AnalysisNode) (adm_row : BaseRow)
    (af : AreasField) (tp : TimePeriod) (ar : List LongRow) (aw : List WideRow)
    (out : List LongRow × List WideRow × TimePeriod)
    (h : processAreas analysis adm_row af tp ar aw = some out)
    (hclosed : widenList tp (anaRangesT analysis.loc) = tp) :
    out.2.2 = tp := by
  cases af with
  | absent => simp [processAreas] at h
  | null =>
    unfold processAreas at h
    cases h
    rfl
  | list l => exact processAreaList_tp analysis adm_row l tp ar aw out h hclosed

theorem processGroupList_tp (analysis : AnalysisNode) (base_row : BaseRow) :
    ∀ (gl : List GroupNode) (tp : TimePeriod) (gr : List LongRow) (gw : List WideRow)
      (ar : List LongRow) (aw : List WideRow)
      (out : List LongRow × List WideRow × List LongRow × List WideRow × TimePeriod),
      processGroupList analysis base_row gl tp gr gw ar aw = some out →
      widenList tp (anaRangesT analysis.loc) = tp →
      out.2.2.2.2 = tp := by
  intro gl
  induction gl with
  | nil =>
    intro tp gr gw ar aw out h _
    cases h
    rfl
  | cons g rest ih =>
    intro tp gr gw ar aw out h hclosed
    unfold processGroupList at h
    simp only [Option.bind_eq_bind, bind, Option.bind_eq_some] at h
    obtain ⟨⟨gr1, gw1, tp1, lx⟩, h1, h⟩ := h
    have hTp := (acsr_spec _ _ _ _ _ _ _ _ _ _ h1).2.2
    simp only [Option.getD_some] at hTp
    rw [hTp, hclosed] at h
    cases hga : g.areas with
    | absent =>
      rw [hga] at h
      simp only [ne_eq, not_true_eq_false, if_false] at h
      exact ih tp gr1 gw1 ar aw out h hclosed
    | null =>
      rw [hga] at h
      simp only [ne_eq, reduceCtorEq, not_false_eq_true, if_true] at h
      exact ih tp gr1 gw1 ar aw out h hclosed
    | list lst =>
      rw [hga] at h
      simp only [ne_eq, reduceCtorEq, not_false_eq_true, if_true] at h
      rw [Option.bind_eq_some] at h
      obtain ⟨y, hy, h⟩ := h
      have htpy : y.2.2 = tp :=
        processAreas_tp analysis _ (.list lst) tp ar aw y hy hclosed
      rw [htpy] at h
      exact ih tp gr1 gw1 y.1 y.2.1 out h hclosed
theorem add_subnational_rows_tp (analysis : AnalysisNode) (countryiso3 : String)
    (tp : TimePeriod) (gr : List LongRow) (gw : List WideRow)
    (ar : List LongRow) (aw : List WideRow)
    (out : List LongRow × List WideRow × List LongRow × List WideRow × TimePeriod)
    (h : add_subnational_rows analysis countryiso3 tp gr gw ar aw = some out)
    (hclosed : widenList tp (anaRangesT analysis.loc) = tp) :
    out.2.2.2.2 = tp := by
  unfold add_subnational_rows at h
  cases hg : analysis.groups with
  | some gl =>
    cases gl with
    | cons g gs =>
      rw [hg] at h
      exact processGroupList_tp analysis _ (g :: gs) tp gr gw ar aw out h hclosed
    | nil =>
      rw [hg] at h
      simp only [Option.bind_eq_bind, bind, Option.bind_eq_some] at h
      obtain ⟨⟨ar1, aw1, tpy⟩, hy, h⟩ := h
      have htpy : tpy = tp :=
        processAreas_tp analysis _ analysis.areas tp ar aw (ar1, aw1, tpy) hy hclosed
      simp only [Option.some.injEq] at h
      rw [← h]
      exact htpy
  | none =>
    rw [hg] at h
    simp only [Option.bind_eq_bind, bind, Option.bind_eq_some] at h
    obtain ⟨⟨ar1, aw1, tpy⟩, hy, h⟩ := h
    have htpy : tpy = tp :=
      processAreas_tp analysis _ analysis.areas tp ar aw (ar1, aw1, tpy) hy hclosed
    simp only [Option.some.injEq] at h
    rw [← h]
    exact htpy

theorem walkAnalysis_tp (a : AnalysisNode) (countryiso3 : String) (rs : RowSets)
    (tp : TimePeriod) (rs2 : RowSets) (tp2 : TimePeriod)
    (h : walkAnalysis a countryiso3 rs tp = some (rs2, tp2)) :
    tp2 = widenList tp (anaRangesT a.loc) := by
  unfold walkAnalysis add_country_rows at h
  simp only [Option.bind_eq_bind, bind, Option.bind_eq_some] at h
  obtain ⟨⟨cr, cw, tp1, lx⟩, h1, h⟩ := h
  have hTp := (acsr_spec _ _ _ _ _ _ _ _ _ _ h1).2.2
  simp only [Option.getD_none] at hTp
  obtain ⟨⟨gr, gw, ar, aw, tpB⟩, h2, h⟩ := h
  have hcl : widenList tp1 (anaRangesT a.loc) = tp1 := by
    rw [hTp]
    exact widenList_idem tp (anaRangesT a.loc)
  have h3 := add_subnational_rows_tp a countryiso3 tp1 rs.group_rows
    rs.group_rows_wide rs.area_rows rs.area_rows_wide (gr, gw, ar, aw, tpB) h2 hcl
  simp only [Option.some.injEq, Prod.mk.injEq] at h
  have h3x : tpB = tp1 := h3
  rw [← h.2, h3x, hTp]

theorem walkAnalyses_tp (countryiso3 : String) :
    ∀ (cd : List AnalysisNode) (rs : RowSets) (tp : TimePeriod)
      (rs2 : RowSets) (tp2 : TimePeriod),
      walkAnalyses countryiso3 cd rs tp = some (rs2, tp2) →
      tp2 = widenList tp (countryRangesT cd) := by
  intro cd
  induction cd with
  | nil =>
    intro rs tp rs2 tp2 h
    cases h
    rfl
  | cons a rest ih =>
    intro rs tp rs2 tp2 h
    unfold walkAnalyses at h
    simp only [Option.bind_eq_bind, bind, Option.bind_eq_some] at h
    obtain ⟨⟨rs1, tp1⟩, h1, h⟩ := h
    rw [walkAnalysis_tp a countryiso3 rs tp rs1 tp1 h1] at h
    have hrest := ih rs1 (widenList tp (anaRangesT a.loc)) rs2 tp2 h
    rw [hrest]
    rw [show countryRangesT (a :: rest) = anaRangesT a.loc ++ countryRangesT rest
      from rfl]
    rw [widenList_append]

theorem walkAnalysis_wide (a : AnalysisNode) (countryiso3 : String) (rs : RowSets)
    (tp : TimePeriod) (rs2 : RowSets) (tp2 : TimePeriod)
    (h : walkAnalysis a countryiso3 rs tp = some (rs2, tp2)) :
    ∃ w, rs2.country_rows_wide = rs.country_rows_wide ++ [w] := by
  unfold walkAnalysis add_country_rows at h
  simp only [Option.bind_eq_bind, bind, Option.bind_eq_some] at h
  obtain ⟨⟨cr, cw, tp1, lx⟩, h1, h⟩ := h
  obtain ⟨_, ⟨w, hw⟩, _⟩ := acsr_spec _ _ _ _ _ _ _ _ _ _ h1
  obtain ⟨⟨gr, gw, ar, aw, tpB⟩, h2, h⟩ := h
  simp only [Option.some.injEq, Prod.mk.injEq] at h
  rw [← h.1]
  exact ⟨w, hw⟩

theorem walkAnalyses_wideLen (countryiso3 : String) :
    ∀ (cd : List AnalysisNode) (rs : RowSets) (tp : TimePeriod)
      (rs2 : RowSets) (tp2 : TimePeriod),
      walkAnalyses countryiso3 cd rs tp = some (rs2, tp2) →
      rs2.country_rows_wide.length = rs.country_rows_wide.length + cd.length := by
  intro cd
  induction cd with
  | nil =>
    intro rs tp rs2 tp2 h
    cases h
    rfl
  | cons a rest ih =>
    intro rs tp rs2 tp2 h
    unfold walkAnalyses at h
    simp only [Option.bind_eq_bind, bind, Option.bind_eq_some] at h
    obtain ⟨⟨rs1, tp1⟩, h1, h⟩ := h
    obtain ⟨w, hw⟩ := walkAnalysis_wide a countryiso3 rs tp rs1 tp1 h1
    have := ih rs1 tp1 rs2 tp2 h
    rw [this, hw]
    simp only [List.length_append, List.length_cons, List.length_nil]
    omega

theorem applyWindow_start (out : OutputBundle) (st : StateD) (tpB : TimePeriod) :
    (applyWindow out st tpB).1.start_date = min out.start_date tpB.start_date := by
  by_cases h1 : tpB.start_date < out.start_date <;>
    by_cases h2 : out.end_date < tpB.end_date
  · simp [applyWindow, h1, h2, min_eq_right h1.le]
  · simp [applyWindow, h1, h2, min_eq_right h1.le]
  · simp [applyWindow, h1, h2, min_eq_left (not_lt.mp h1)]
  · simp [applyWindow, h1, h2, min_eq_left (not_lt.mp h1)]

theorem applyWindow_end (out : OutputBundle) (st : StateD) (tpB : TimePeriod) :
    (applyWindow out st tpB).1.end_date = max out.end_date tpB.end_date := by
  by_cases h1 : tpB.start_date < out.start_date <;>
    by_cases h2 : out.end_date < tpB.end_date
  · simp [applyWindow, h1, h2, max_eq_right h2.le]
  · simp [applyWindow, h1, h2, max_eq_left (not_lt.mp h2)]
  · simp [applyWindow, h1, h2, max_eq_right h2.le]
  · simp [applyWindow, h1, h2, max_eq_left (not_lt.mp h2)]

theorem applyWindow_latest (out : OutputBundle) (st : StateD) (tpB : TimePeriod) :
    (applyWindow out st tpB).1.latest = out.latest := by
  by_cases h1 : tpB.start_date < out.start_date <;>
    by_cases h2 : out.end_date < tpB.end_date <;>
      simp [applyWindow, h1, h2]

theorem applyWindow_allHistory (out : OutputBundle) (st : StateD) (tpB : TimePeriod) :
    (applyWindow out st tpB).1.allHistory = out.allHistory := by
  by_cases h1 : tpB.start_date < out.start_date <;>
    by_cases h2 : out.end_date < tpB.end_date <;>
      simp [applyWindow, h1, h2]

theorem applyWindow_countries (out : OutputBundle) (st : StateD) (tpB : TimePeriod) :
    (applyWindow out st tpB).2.countries = st.countries := by
  by_cases h1 : tpB.start_date < out.start_date <;>
    by_cases h2 : out.end_date < tpB.end_date <;>
      simp [applyWindow, h1, h2]

theorem applyLatest_dates (out : OutputBundle) (ls : Option RowSets) :
    (applyLatest out ls).start_date = out.start_date ∧
    (applyLatest out ls).end_date = out.end_date ∧
    (applyLatest out ls).allHistory = out.allHistory := by
  cases ls <;> exact ⟨rfl, rfl, rfl⟩

theorem latestPass_spec (cd : List AnalysisNode) (countryiso3 : String)
    (tp0 : TimePeriod) (gj : Option String) (ls : Option RowSets) (tpA : TimePeriod)
    (h : latestPass cd countryiso3 tp0 = some (gj, ls, tpA)) :
    (List.find? (fun a => strTruthy (a.loc.periodDates.get .current)) cd = none ∧
      ls = none ∧ tpA = tp0) ∨
    (∃ a, List.find? (fun a => strTruthy (a.loc.periodDates.get .current)) cd = some a ∧
      a ∈ cd ∧ ∃ rsL, ls = some rsL ∧
      tpA = widenList tp0 (anaRangesT a.loc) ∧
      ∃ w, rsL.country_rows_wide = [w]) := by
  unfold latestPass at h
  cases hfind : List.find? (fun a => strTruthy (a.loc.periodDates.get .current)) cd with
  | none =>
    rw [hfind] at h
    simp only [Option.some.injEq, Prod.mk.injEq] at h
    exact Or.inl ⟨rfl, h.2.1.symm, h.2.2.symm⟩
  | some a =>
    rw [hfind] at h
    simp only [Option.bind_eq_bind, bind, Option.bind_eq_some] at h
    obtain ⟨d2, _, h⟩ := h
    obtain ⟨⟨rsL, tp1⟩, hwa, h⟩ := h
    simp only [Option.some.injEq, Prod.mk.injEq] at h
    refine Or.inr ⟨a, rfl, List.mem_of_find?_eq_some hfind, rsL, h.2.1.symm, ?_, ?_⟩
    · rw [← h.2.2]
      exact walkAnalysis_tp a countryiso3 emptyRowSets tp0 rsL tp1 hwa
    · obtain ⟨w, hw⟩ := walkAnalysis_wide a countryiso3 emptyRowSets tp0 rsL tp1 hwa
      exact ⟨w, by simpa using hw⟩
theorem lookup_setAssoc (l : List (String × Date)) (k : String) (v : Date) :
    List.lookup k (setAssoc l k v) = some v := by
  induction l with
  | nil => simp [setAssoc, List.lookup]
  | cons p t ih =>
    obtain ⟨a, b⟩ := p
    by_cases hp : a = k
    · subst hp
      simp [setAssoc, List.lookup]
    · have hka : (k == a) = false := beq_eq_false_iff_ne.mpr fun he => hp he.symm
      simp [setAssoc, hp, List.lookup, hka, ih]

theorem ranges_subset_fst (a : AnalysisNode) (cd : List AnalysisNode) (ha : a ∈ cd) :
    ∀ x ∈ (anaRangesT a.loc).map Prod.fst, x ∈ (countryRangesT cd).map Prod.fst := by
  intro x hx
  obtain ⟨r, hr, hxx⟩ := List.mem_map.mp hx
  exact List.mem_map.mpr ⟨r, List.mem_flatMap.mpr ⟨a, ha, hr⟩, hxx⟩

theorem ranges_subset_snd (a : AnalysisNode) (cd : List AnalysisNode) (ha : a ∈ cd) :
    ∀ x ∈ (anaRangesT a.loc).map Prod.snd, x ∈ (countryRangesT cd).map Prod.snd := by
  intro x hx
  obtain ⟨r, hr, hxx⟩ := List.mem_map.mp hx
  exact List.mem_map.mpr ⟨r, List.mem_flatMap.mpr ⟨a, ha, hr⟩, hxx⟩

theorem get_country_data_spec (mra : AnalysisNode) (rest : List AnalysisNode)
    (countryiso3 : String) (st : StateD) (out : OutputBundle)
    (res : Option CountryOutput) (st2 : StateD) (out2 : OutputBundle)
    (h : get_country_data (mra :: rest) countryiso3 st out = some (res, st2, out2)) :
    ∃ d, parse_date mra.analysis_date = some d ∧
      st2.countries = setAssoc st.countries countryiso3 d ∧
      (res = none ↔ d ≤ (st.lookup countryiso3).getD st.defaultDate) ∧
      (∃ rsH, out2.allHistory = out.allHistory.extend rsH ∧
        rsH.country_rows_wide.length = rest.length + 1) ∧
      ((List.find? (fun a => strTruthy (a.loc.periodDates.get .current)) (mra :: rest) =
          none → out2.latest = out.latest) ∧
        ((List.find? (fun a => strTruthy (a.loc.periodDates.get .current))
            (mra :: rest)).isSome →
          ∃ rsL, out2.latest = out.latest.extend rsL ∧
            ∃ w, rsL.country_rows_wide = [w])) ∧
      out2.start_date = min out.start_date
        (List.foldl min default_enddate ((countryRangesT (mra :: rest)).map Prod.fst)) ∧
      out2.end_date = max out.end_date
        (List.foldl max default_date ((countryRangesT (mra :: rest)).map Prod.snd)) := by
  unfold get_country_data at h
  simp only [Option.bind_eq_bind, bind, Option.bind_eq_some] at h
  obtain ⟨d, hdate, h⟩ := h
  obtain ⟨⟨gj, ls, tpA⟩, hlp, h⟩ := h
  obtain ⟨⟨rsH, tpB⟩, hwalk, h⟩ := h
  simp only [Option.some.injEq, Prod.mk.injEq] at h
  obtain ⟨hres, hst, hout⟩ := h
  have htpB := walkAnalyses_tp countryiso3 (mra :: rest) emptyRowSets tpA rsH tpB hwalk
  have hlen := walkAnalyses_wideLen countryiso3 (mra :: rest) emptyRowSets tpA rsH tpB hwalk
  refine ⟨d, hdate, ?_, ?_, ?_, ?_, ?_, ?_⟩
  · rw [← hst, applyWindow_countries]
    rfl
  · by_cases hle : d ≤ (st.lookup countryiso3).getD st.defaultDate
    · simp only [hle, if_true, if_false, Bool.false_eq_true] at hres
      exact ⟨fun _ => hle, fun _ => hres.symm⟩
    · simp only [hle, if_false, if_true] at hres
      constructor
      · intro hrn
        rw [← hres] at hrn
        simp at hrn
      · intro hc
        exact absurd hc hle
  · refine ⟨rsH, ?_, ?_⟩
    · rw [← hout, applyWindow_allHistory]
      show (applyLatest out ls).allHistory.extend rsH = out.allHistory.extend rsH
      rw [(applyLatest_dates out ls).2.2]
    · simp only [List.length_cons] at hlen
      simpa [emptyRowSets] using hlen
  · rcases latestPass_spec (mra :: rest) countryiso3 _ gj ls tpA hlp with
      ⟨hfind, hln, _⟩ | ⟨a, hfind, ha, rsL, hls, _, w, hw⟩
    · subst hln
      constructor
      · intro _
        rw [← hout, applyWindow_latest]
        rfl
      · intro hsome
        rw [hfind] at hsome
        simp at hsome
    · subst hls
      constructor
      · intro hnone
        rw [hfind] at hnone
        simp at hnone
      · intro _
        rw [← hout, applyWindow_latest]
        exact ⟨rsL, rfl, w, hw⟩
  · rw [← hout, applyWindow_start]
    have hstartbig : (applyLatest out ls).start_date = out.start_date :=
      (applyLatest_dates out ls).1
    show min (applyLatest out ls).start_date tpB.start_date = _
    rw [hstartbig, htpB, widenList_start]
    rcases latestPass_spec (mra :: rest) countryiso3 _ gj ls tpA hlp with
      ⟨_, _, htpA⟩ | ⟨a, _, ha, rsL, _, htpA, _⟩
    · rw [htpA]
    · rw [htpA, widenList_start]
      show min out.start_date
          (List.foldl min (List.foldl min default_enddate ((anaRangesT a.loc).map Prod.fst))
            ((countryRangesT (mra :: rest)).map Prod.fst)) = _
      rw [foldl_min_sub ((anaRangesT a.loc).map Prod.fst)
        ((countryRangesT (mra :: rest)).map Prod.fst)
        (ranges_subset_fst a (mra :: rest) ha) default_enddate]
  · rw [← hout, applyWindow_end]
    have hendbig : (applyLatest out ls).end_date = out.end_date :=
      (applyLatest_dates out ls).2.1
    show max (applyLatest out ls).end_date tpB.end_date = _
    rw [hendbig, htpB, widenList_end]
    rcases latestPass_spec (mra :: rest) countryiso3 _ gj ls tpA hlp with
      ⟨_, _, htpA⟩ | ⟨a, _, ha, rsL, _, htpA, _⟩
    · rw [htpA]
    · rw [htpA, widenList_end]
      show max out.end_date
          (List.foldl max (List.foldl max default_date ((anaRangesT a.loc).map Prod.snd))
            ((countryRangesT (mra :: rest)).map Prod.snd)) = _
      rw [foldl_max_sub ((anaRangesT a.loc).map Prod.snd)
        ((countryRangesT (mra :: rest)).map Prod.snd)
        (ranges_subset_snd a (mra :: rest) ha) default_date]

/-- C4: across every sequence of `get_country_data` calls the global
output bundle's `start_date` only ever decreases and its `end_date`
only ever increases, and after processing all countries they equal the
fold of `min`/`max` over the seed bounds and every projection validity
period parsed across all countries. -/
theorem c4_window_monotone (inputs : List (String × List AnalysisNode)) :
    ∀ (st : StateD) (out : OutputBundle) (st2 : StateD) (out2 : OutputBundle),
      processCountries inputs st out = some (st2, out2) →
      out.start_date ≤ default_enddate → default_date ≤ out.end_date →
      out2.start_date =
        List.foldl min out.start_date ((inputsRanges inputs).map Prod.fst) ∧
      out2.end_date =
        List.foldl max out.end_date ((inputsRanges inputs).map Prod.snd) ∧
      out2.start_date ≤ out.start_date ∧ out.end_date ≤ out2.end_date := by
  induction inputs with
  | nil =>
    intro st out st2 out2 h _ _
    simp only [processCountries, Option.some.injEq, Prod.mk.injEq] at h
    rw [← h.2]
    exact ⟨rfl, rfl, le_refl _, le_refl _⟩
  | cons pr rest ih =>
    obtain ⟨iso3, cd⟩ := pr
    intro st out st2 out2 h hs he
    unfold processCountries at h
    simp only [Option.bind_eq_bind, bind, Option.bind_eq_some] at h
    obtain ⟨⟨r1, st1, out1⟩, h1, h⟩ := h
    cases cd with
    | nil =>
      have h1' : (some (none, st, out) :
          Option (Option CountryOutput × StateD × OutputBundle)) = some (r1, st1, out1) :=
        h1
      simp only [Option.some.injEq, Prod.mk.injEq] at h1'
      obtain ⟨-, hst1, hout1⟩ := h1'
      rw [← hst1, ← hout1] at h
      obtain ⟨ihs, ihe, m1, m2⟩ := ih st out st2 out2 h hs he
      exact ⟨ihs, ihe, m1, m2⟩
    | cons mra crest =>
      obtain ⟨d, hd, hc, hi, hh, hl, hstart, hend⟩ :=
        get_country_data_spec mra crest iso3 st out r1 st1 out1 h1
      have hstart' : out1.start_date =
          List.foldl min out.start_date ((countryRangesT (mra :: crest)).map Prod.fst) := by
        rw [hstart, min_foldl _ out.start_date default_enddate hs]
      have hend' : out1.end_date =
          List.foldl max out.end_date ((countryRangesT (mra :: crest)).map Prod.snd) := by
        rw [hend, max_foldl _ out.end_date default_date he]
      have hs1 : out1.start_date ≤ default_enddate := by
        rw [hstart']
        exact le_trans (foldl_min_le_self _ _) hs
      have he1 : default_date ≤ out1.end_date := by
        rw [hend']
        exact le_trans he (foldl_max_ge_self _ _)
      obtain ⟨ihs, ihe, m1, m2⟩ := ih st1 out1 st2 out2 h hs1 he1
      have hsplit1 : (inputsRanges ((iso3, mra :: crest) :: rest)).map Prod.fst =
          (countryRangesT (mra :: crest)).map Prod.fst ++
            (inputsRanges rest).map Prod.fst := by
        simp [inputsRanges, List.map_append]
      have hsplit2 : (inputsRanges ((iso3, mra :: crest) :: rest)).map Prod.snd =
          (countryRangesT (mra :: crest)).map Prod.snd ++
            (inputsRanges rest).map Prod.snd := by
        simp [inputsRanges, List.map_append]
      have key1 : out2.start_date =
          List.foldl min out.start_date
            ((inputsRanges ((iso3, mra :: crest) :: rest)).map Prod.fst) := by
        rw [ihs, hstart', hsplit1, List.foldl_append]
      have key2 : out2.end_date =
          List.foldl max out.end_date
            ((inputsRanges ((iso3, mra :: crest) :: rest)).map Prod.snd) := by
        rw [ihe, hend', hsplit2, List.foldl_append]
      refine ⟨key1, key2, ?_, ?_⟩
      · rw [key1]
        exact foldl_min_le_self _ _
      · rw [key2]
        exact foldl_max_ge_self _ _

theorem c4_witness :
    ∃ (st2 : StateD) (out2 : OutputBundle),
      processCountries [("AFG", witCountry)] witState witBundle = some (st2, out2) ∧
      out2.start_date =
        List.foldl min witBundle.start_date
          ((inputsRanges [("AFG", witCountry)]).map Prod.fst) ∧
      out2.end_date =
        List.foldl max witBundle.end_date
          ((inputsRanges [("AFG", witCountry)]).map Prod.snd) ∧
      out2.start_date ≤ witBundle.start_date ∧
      witBundle.end_date ≤ out2.end_date := by
  obtain ⟨⟨st2, out2⟩, hrun⟩ :
      ∃ o, processCountries [("AFG", witCountry)] witState witBundle = some o :=
    ⟨_, rfl⟩
  exact ⟨st2, out2, hrun,
    c4_window_monotone [("AFG", witCountry)] witState witBundle st2 out2 hrun
      (le_refl _) (le_refl _)⟩

/-- C3: every `get_country_data` call on a non-empty analysis history
sets the per-country watermark to the newest analysis date
unconditionally; and when that date is not strictly greater than the
prior watermark (or the DEFAULT cutoff), the call returns `none` while
the process-wide bundle is still extended with the country's
all-history rows (one wide row per analysis) and — whenever a current
analysis exists — its latest rows. -/
theorem c3_watermark_unconditional (mra : AnalysisNode) (rest : List AnalysisNode)
    (countryiso3 : String) (st : StateD) (out : OutputBundle)
    (res : Option CountryOutput) (st2 : StateD) (out2 : OutputBundle)
    (h : get_country_data (mra :: rest) countryiso3 st out = some (res, st2, out2)) :
    ∃ d, parse_date mra.analysis_date = some d ∧
      st2.lookup countryiso3 = some d ∧
      (d ≤ (st.lookup countryiso3).getD st.defaultDate →
        res = none ∧
        (∃ rsH, out2.allHistory = out.allHistory.extend rsH ∧
          rsH.country_rows_wide.length = rest.length + 1) ∧
        ((List.find? (fun a => strTruthy (a.loc.periodDates.get .current))
            (mra :: rest)).isSome →
          ∃ rsL, out2.latest = out.latest.extend rsL ∧
            ∃ w, rsL.country_rows_wide = [w])) := by
  obtain ⟨d, hd, hcs, hiff, hHist, hLatest, -, -⟩ :=
    get_country_data_spec mra rest countryiso3 st out res st2 out2 h
  refine ⟨d, hd, ?_, fun hle => ⟨hiff.mpr hle, hHist, hLatest.2⟩⟩
  show List.lookup countryiso3 st2.countries = some d
  rw [hcs]
  exact lookup_setAssoc st.countries countryiso3 d

theorem c3_witness :
    ∃ (res : Option CountryOutput) (st2 : StateD) (out2 : OutputBundle),
      get_country_data witCountry "AFG" witStateLate witBundle =
        some (res, st2, out2) ∧
      st2.lookup "AFG" = some ⟨2023, 5, 1⟩ ∧ res = none := by
  obtain ⟨⟨res, st2, out2⟩, hrun⟩ :
      ∃ o, get_country_data witCountry "AFG" witStateLate witBundle = some o :=
    ⟨_, rfl⟩
  obtain ⟨d, hd, hlook, himp⟩ :=
    c3_watermark_unconditional witAna5 [] "AFG" witStateLate witBundle res st2 out2 hrun
  have hpd : parse_date witAna5.analysis_date = some ⟨2023, 5, 1⟩ := by decide
  rw [hpd] at hd
  have hdd : d = ⟨2023, 5, 1⟩ := by
    injection hd with hd'
    exact hd'.symm
  have hle : d ≤ (witStateLate.lookup "AFG").getD witStateLate.defaultDate := by
    rw [hdd]
    decide
  exact ⟨res, st2, out2, hrun, hdd ▸ hlook, (himp hle).1⟩

/-! ## Duplicate-resolution marks: basic lemmas (towards C2 and C9) -/

theorem getMark_setMark_self : ∀ (d : Marks) (j : Nat) (s : String),
    getMark (setMark d j s) j = some s := by
  intro d
  induction d with
  | nil => intro j s; simp [setMark, getMark]
  | cons p t ih =>
    intro j s
    obtain ⟨i, m⟩ := p
    by_cases hij : i = j
    · subst hij
      simp [setMark, getMark]
    · simp [setMark, getMark, hij, ih]

theorem getMark_setMark_ne : ∀ (d : Marks) (j : Nat) (s : String) (i : Nat), i ≠ j →
    getMark (setMark d j s) i = getMark d i := by
  intro d
  induction d with
  | nil =>
    intro j s i hij
    have hji : ¬j = i := fun h => hij h.symm
    simp [setMark, getMark, hji]
  | cons p t ih =>
    intro j s i hij
    obtain ⟨a, m⟩ := p
    by_cases haj : a = j
    · subst haj
      have hai : ¬a = i := fun h => hij (h ▸ rfl)
      simp [setMark, getMark, hai]
    · by_cases hax : a = i
      · subst hax
        simp [setMark, getMark, haj]
      · simp [setMark, getMark, haj, hax, ih j s i hij]

theorem foldl_setMark_frame {α : Type} (idOf : α → Nat) (m : String)
    (f : Marks → α → Marks)
    (hf : ∀ acc v, f acc v = acc ∨ f acc v = setMark acc (idOf v) m) :
    ∀ (l : List α) (d : Marks) (i : Nat), i ∉ l.map idOf →
      getMark (List.foldl f d l) i = getMark d i := by
  intro l
  induction l with
  | nil => intro d i _; rfl
  | cons a t ih =>
    intro d i hi
    rw [List.map_cons, List.mem_cons] at hi
    have h1 : i ≠ idOf a := fun h => hi (Or.inl h)
    have h2 : i ∉ t.map idOf := fun h => hi (Or.inr h)
    show getMark (List.foldl f (f d a) t) i = getMark d i
    rw [ih (f d a) i h2]
    rcases hf d a with h | h
    · rw [h]
    · rw [h, getMark_setMark_ne d (idOf a) m i h1]

theorem foldl_max_mem {α : Type} [LinearOrder α] (l : List α) :
    ∀ s : α, List.foldl max s l = s ∨ List.foldl max s l ∈ l := by
  induction l with
  | nil => intro s; exact Or.inl rfl
  | cons a t ih =>
    intro s
    rcases ih (max s a) with h | h
    · rcases max_choice s a with hc | hc
      · exact Or.inl (by rw [List.foldl_cons, h, hc])
      · exact Or.inr (by rw [List.foldl_cons, h, hc]; exact List.mem_cons_self a t)
    · exact Or.inr (List.mem_cons_of_mem a h)

theorem listMax_spec {α : Type} [LinearOrder α] (l : List α) (m : α)
    (h : listMax l = some m) : m ∈ l ∧ ∀ x ∈ l, x ≤ m := by
  cases l with
  | nil => cases h
  | cons a t =>
    have hm : t.foldl max a = m := by
      simpa [listMax] using h
    constructor
    · rcases foldl_max_mem t a with h1 | h1
      · rw [← hm, h1]; exact List.mem_cons_self a t
      · rw [← hm]; exact List.mem_cons_of_mem a h1
    · intro x hx
      rcases List.mem_cons.mp hx with rfl | hxt
      · rw [← hm]; exact foldl_max_ge_self t x
      · rw [← hm]; exact foldl_max_ge_mem t a x hxt

theorem length_filterMap_if {α β : Type} (p : α → Prop) [DecidablePred p] (f : α → β) :
    ∀ l : List α,
      (l.filterMap fun a => if p a then some (f a) else none).length =
        l.countP fun a => decide (p a) := by
  intro l
  induction l with
  | nil => rfl
  | cons a t ih =>
    by_cases hp : p a
    · simp [List.filterMap_cons, hp, List.countP_cons, ih]
    · simp [List.filterMap_cons, hp, List.countP_cons, ih]

theorem countP_eq_one_of_nodup_map {α β : Type} [DecidableEq β] (f : α → β) (b : β) :
    ∀ l : List α, (l.map f).Nodup → b ∈ l.map f →
      (l.countP fun a => decide (f a = b)) = 1 := by
  intro l
  induction l with
  | nil => intro _ hb; cases hb
  | cons a t ih =>
    intro hnd hb
    rw [List.map_cons, List.nodup_cons] at hnd
    rw [List.map_cons, List.mem_cons] at hb
    rcases hb with rfl | hbt
    · have h0 : t.countP (fun x => decide (f x = f a)) = 0 := by
        rw [List.countP_eq_zero]
        intro x hx
        simp only [decide_eq_true_eq]
        intro hfx
        exact hnd.1 (hfx ▸ List.mem_map_of_mem f hx)
      rw [List.countP_cons, h0]
      simp
    · have hfa : ¬f a = b := fun h => hnd.1 (h ▸ hbt)
      rw [List.countP_cons]
      simp [hfa, ih hnd.2 hbt]

theorem markEarlier_cons (latest : Date) (a : DupEntry) (t : List DupEntry) (d : Marks) :
    markEarlier latest (a :: t) d =
      markEarlier latest t (if a.2.2 ≠ latest then setMark d a.1 dateMsg else d) := rfl

theorem markEarlier_frame (latest : Date) (vs : List DupEntry) (d : Marks) (i : Nat)
    (hi : i ∉ vs.map fun v => v.1) :
    getMark (markEarlier latest vs d) i = getMark d i :=
  foldl_setMark_frame (fun v : DupEntry => v.1) dateMsg _
    (fun acc v => by
      by_cases h : v.2.2 = latest
      · exact Or.inl (if_neg (by simp [h]))
      · exact Or.inr (if_pos h))
    vs d i hi

theorem markLowerPop_frame (highest : ℚ) (vs : List DupEntry) (d : Marks) (i : Nat)
    (hi : i ∉ vs.map fun v => v.1) :
    getMark (markLowerPop highest vs d) i = getMark d i :=
  foldl_setMark_frame (fun v : DupEntry => v.1) popMsg _
    (fun acc v => by
      by_cases h : v.2.1 ≠ highest ∧ (getMark acc v.1).isNone
      · exact Or.inr (if_pos h)
      · exact Or.inl (if_neg h))
    vs d i hi

theorem foldTie_frame (l : List Nat) (d : Marks) (i : Nat) (hi : i ∉ l) :
    getMark (l.foldl (fun acc j => setMark acc j tieMsg) d) i = getMark d i :=
  foldl_setMark_frame (fun j : Nat => j) tieMsg _ (fun _ _ => Or.inr rfl) l d i
    (by simpa using hi)

theorem markEarlier_mem (latest : Date) :
    ∀ (vs : List DupEntry) (d : Marks), (vs.map fun v => v.1).Nodup →
      ∀ v ∈ vs,
        getMark (markEarlier latest vs d) v.1 =
          if v.2.2 = latest then getMark d v.1 else some dateMsg := by
  intro vs
  induction vs with
  | nil => intro d _ v hv; cases hv
  | cons a t ih =>
    intro d hnd v hv
    rw [List.map_cons, List.nodup_cons] at hnd
    rw [markEarlier_cons]
    rcases List.mem_cons.mp hv with rfl | hvt
    · by_cases hl : v.2.2 = latest
      · rw [if_pos hl, if_neg (by simp [hl]), markEarlier_frame latest t d v.1 hnd.1]
      · rw [if_neg hl, if_pos hl,
          markEarlier_frame latest t (setMark d v.1 dateMsg) v.1 hnd.1]
        exact getMark_setMark_self d v.1 dateMsg
    · have hva : v.1 ≠ a.1 := by
        intro h
        exact hnd.1 (h ▸ List.mem_map_of_mem (fun w => w.1) hvt)
      rw [ih _ hnd.2 v hvt]
      by_cases hl : v.2.2 = latest
      · rw [if_pos hl, if_pos hl]
        by_cases ha : a.2.2 = latest
        · rw [if_neg (by simp [ha])]
        · rw [if_pos ha, getMark_setMark_ne d a.1 dateMsg v.1 hva]
      · rw [if_neg hl, if_neg hl]

theorem dupGroupStep_frame (vs : List DupEntry) (d : Marks) (i : Nat)
    (hi : i ∉ vs.map fun v => v.1) :
    getMark (dupGroupStep vs d) i = getMark d i := by
  have hnotTail : ∀ f : DupEntry → Option Nat, (∀ v j, f v = some j → j = v.1) →
      i ∉ (vs.filterMap f).tail := by
    intro f hf hmem
    obtain ⟨v, hv, hfv⟩ := List.mem_filterMap.mp (List.mem_of_mem_tail hmem)
    exact hi (List.mem_map.mpr ⟨v, hv, (hf v i hfv).symm⟩)
  unfold dupGroupStep
  by_cases h1 : vs.length ≤ 1
  · rw [if_pos h1]
  · rw [if_neg h1]
    cases hlm : listMax (vs.map fun v => v.2.2) with
    | none => rfl
    | some latest =>
      simp only []
      by_cases h2 : (vs.filterMap fun v =>
          if (getMark (markEarlier latest vs d) v.1).isNone then some v.1 else
            none).length = 1
      · rw [if_pos h2]
        exact markEarlier_frame latest vs d i hi
      · rw [if_neg h2]
        cases hp : listMax (vs.filterMap fun v =>
            if v.1 ∈ (vs.filterMap fun w =>
              if (getMark (markEarlier latest vs d) w.1).isNone then some w.1 else none)
            then some v.2.1 else none) with
        | none => exact markEarlier_frame latest vs d i hi
        | some highest =>
          simp only []
          by_cases h3 : 1 < (vs.filterMap fun v =>
              if v.1 ∈ (vs.filterMap fun w =>
                if (getMark (markEarlier latest vs d) w.1).isNone then some w.1 else
                  none)
              then some v.2.1 else none).count highest
          · rw [if_pos h3]
            rw [foldTie_frame _ _ i (hnotTail _ ?_)]
            · rw [markLowerPop_frame highest vs _ i hi,
                markEarlier_frame latest vs d i hi]
            · intro v j hfv
              by_cases hc : v.2.1 = highest ∧
                  (getMark (markLowerPop highest vs (markEarlier latest vs d)) v.1).isNone
              · rw [if_pos hc] at hfv
                exact (Option.some.injEq _ _).mp hfv.symm
              · rw [if_neg hc] at hfv
                cases hfv
          · rw [if_neg h3]
            rw [markLowerPop_frame highest vs _ i hi,
              markEarlier_frame latest vs d i hi]

theorem dupGroupStep_spec (vs : List DupEntry) (d : Marks)
    (hlen : 2 ≤ vs.length) (hids : (vs.map fun v => v.1).Nodup)
    (hdates : (vs.map fun v => v.2.2).Nodup)
    (hclean : ∀ v ∈ vs, getMark d v.1 = none) :
    ∃ latest, listMax (vs.map fun v => v.2.2) = some latest ∧
      latest ∈ (vs.map fun v => v.2.2) ∧
      (∀ x ∈ vs.map fun v => v.2.2, x ≤ latest) ∧
      dupGroupStep vs d = markEarlier latest vs d ∧
      ∀ v ∈ vs,
        getMark (dupGroupStep vs d) v.1 =
          if v.2.2 = latest then none else some dateMsg := by
  obtain ⟨latest, hlm⟩ : ∃ m, listMax (vs.map fun v => v.2.2) = some m := by
    cases vs with
    | nil => simp at hlen
    | cons a t => exact ⟨_, rfl⟩
  obtain ⟨hmem, hub⟩ := listMax_spec _ latest hlm
  have hME : ∀ v ∈ vs, getMark (markEarlier latest vs d) v.1 =
      if v.2.2 = latest then none else some dateMsg := by
    intro v hv
    rw [markEarlier_mem latest vs d hids v hv]
    by_cases hl : v.2.2 = latest
    · rw [if_pos hl, if_pos hl, hclean v hv]
    · rw [if_neg hl, if_neg hl]
  have hleft : (vs.filterMap fun v =>
      if (getMark (markEarlier latest vs d) v.1).isNone then some v.1 else none) =
      vs.filterMap fun v => if v.2.2 = latest then some v.1 else none := by
    apply List.filterMap_congr
    intro v hv
    rw [hME v hv]
    by_cases hl : v.2.2 = latest
    · simp [hl]
    · simp [hl]
  have hcount : (vs.filterMap fun v =>
      if v.2.2 = latest then some v.1 else none).length = 1 := by
    rw [length_filterMap_if (fun v : DupEntry => v.2.2 = latest) (fun v => v.1) vs]
    exact countP_eq_one_of_nodup_map (fun v : DupEntry => v.2.2) latest vs hdates hmem
  have hstep : dupGroupStep vs d = markEarlier latest vs d := by
    unfold dupGroupStep
    rw [if_neg (by omega), hlm]
    simp only []
    rw [hleft, if_pos hcount]
  refine ⟨latest, hlm, hmem, hub, hstep, ?_⟩
  intro v hv
  rw [hstep]
  exact hME v hv

theorem dcIds_cons (k : PKey) (vs : List DupEntry) (rest : DupCheck) :
    dcIds ((k, vs) :: rest) = (vs.map fun v => v.1) ++ dcIds rest := by
  simp [dcIds]

theorem findDupsGo_frame : ∀ (dc : DupCheck) (d : Marks) (i : Nat), i ∉ dcIds dc →
    getMark (findDupsGo dc d) i = getMark d i := by
  intro dc
  induction dc with
  | nil => intro d i _; rfl
  | cons kv rest ih =>
    intro d i hi
    obtain ⟨k, vs⟩ := kv
    rw [dcIds_cons, List.mem_append] at hi
    show getMark (findDupsGo rest (dupGroupStep vs d)) i = getMark d i
    rw [ih (dupGroupStep vs d) i (fun h => hi (Or.inr h))]
    exact dupGroupStep_frame vs d i (fun h => hi (Or.inl h))

theorem findDupsGo_group :
    ∀ (dc : DupCheck) (d : Marks), (dcIds dc).Nodup →
      (∀ i ∈ dcIds dc, getMark d i = none) →
      ∀ (k : PKey) (vs : List DupEntry), (k, vs) ∈ dc →
        2 ≤ vs.length → (vs.map fun v => v.2.2).Nodup →
        ∃ latest, listMax (vs.map fun v => v.2.2) = some latest ∧
          latest ∈ (vs.map fun v => v.2.2) ∧
          (∀ x ∈ vs.map fun v => v.2.2, x ≤ latest) ∧
          ∀ v ∈ vs,
            getMark (findDupsGo dc d) v.1 =
              if v.2.2 = latest then none else some dateMsg := by
  intro dc
  induction dc with
  | nil => intro d _ _ k vs hkv; cases hkv
  | cons kv rest ih =>
    intro d hnd hclean k vs hkv hlen hdates
    obtain ⟨k', vs'⟩ := kv
    rw [dcIds_cons] at hnd
    obtain ⟨hnd1, hnd2, hdisj⟩ := List.nodup_append.mp hnd
    rcases List.mem_cons.mp hkv with heq | htail
    · injection heq with hk hv
      subst hv
      have hclean1 : ∀ v ∈ vs, getMark d v.1 = none := fun v hv =>
        hclean v.1 (by
          rw [dcIds_cons]
          exact List.mem_append_left _ (List.mem_map_of_mem (fun w => w.1) hv))
      obtain ⟨latest, hlm, hmem, hub, _, hper⟩ :=
        dupGroupStep_spec vs d hlen hnd1 hdates hclean1
      refine ⟨latest, hlm, hmem, hub, ?_⟩
      intro v hv
      show getMark (findDupsGo rest (dupGroupStep vs d)) v.1 = _
      rw [findDupsGo_frame rest _ v.1 (hdisj (List.mem_map_of_mem (fun w => w.1) hv))]
      exact hper v hv
    · have hclean1 : ∀ i ∈ dcIds rest, getMark (dupGroupStep vs' d) i = none := by
        intro i hi
        rw [dupGroupStep_frame vs' d i (fun h => (hdisj h) hi)]
        exact hclean i (by rw [dcIds_cons]; exact List.mem_append_right _ hi)
      exact ih (dupGroupStep vs' d) hnd2 hclean1 k vs htail hlen hdates

/-! ## Generation invariants (towards C2 and C9) -/

theorem hapiPhaseRows_fields (ctx : RowCtx) (pc : ProjCols) (popA : ℚ) (p : Projection)
    (tps tpe : Option String) (err : String) (id : Nat) :
    ∀ r ∈ hapiPhaseRows ctx pc popA p tps tpe err id,
      r.analysis_id = id ∧ r.error = err ∧
      r.reference_period_start = tps ∧ r.reference_period_end = tpe := by
  intro r hr
  unfold hapiPhaseRows at hr
  obtain ⟨ph, _, hfr⟩ := List.mem_filterMap.mp hr
  simp only [] at hfr
  cases hpip : (if ph = "all" then some popA else pc.pops.get (phaseKeyOfLabel ph)) with
  | none => rw [hpip] at hfr; cases hfr
  | some v =>
    rw [hpip] at hfr
    simp only [Option.map, Option.some.injEq] at hfr
    rw [← hfr]
    exact ⟨rfl, rfl, rfl, rfl⟩

theorem dcIds_add_perm (k : PKey) (v : DupEntry) :
    ∀ dc : DupCheck, List.Perm (dcIds (dict_of_lists_add k v dc)) (v.1 :: dcIds dc) := by
  intro dc
  induction dc with
  | nil =>
    have h1 : dcIds (dict_of_lists_add k v []) = [v.1] := by
      simp [dict_of_lists_add, dcIds]
    rw [h1]
    have h2 : dcIds ([] : DupCheck) = [] := rfl
    rw [h2]
  | cons kv rest ih =>
    obtain ⟨k', vs⟩ := kv
    by_cases hk : k' = k
    · have h1 : dict_of_lists_add k v ((k', vs) :: rest) = (k', vs ++ [v]) :: rest := by
        simp [dict_of_lists_add, hk]
      have h2 : dcIds ((k', vs ++ [v]) :: rest) =
          (vs.map fun w => w.1) ++ v.1 :: dcIds rest := by
        simp [dcIds]
      rw [h1, h2, dcIds_cons]
      exact List.perm_middle
    · have h1 : dict_of_lists_add k v ((k', vs) :: rest) =
          (k', vs) :: dict_of_lists_add k v rest := by
        simp [dict_of_lists_add, hk]
      rw [h1, dcIds_cons, dcIds_cons]
      exact ((ih.append_left (vs.map fun w => w.1)).trans List.perm_middle)

theorem mem_dcIds_add (k : PKey) (v : DupEntry) (dc : DupCheck) (i : Nat) :
    i ∈ dcIds (dict_of_lists_add k v dc) ↔ i = v.1 ∨ i ∈ dcIds dc := by
  rw [(dcIds_add_perm k v dc).mem_iff]
  simp

theorem nodup_dcIds_add (k : PKey) (v : DupEntry) (dc : DupCheck)
    (hnd : (dcIds dc).Nodup) (hv : v.1 ∉ dcIds dc) :
    (dcIds (dict_of_lists_add k v dc)).Nodup := by
  rw [(dcIds_add_perm k v dc).nodup_iff]
  exact List.nodup_cons.mpr ⟨hv, hnd⟩

theorem goodGen_init : GoodGen ⟨[], [], 0⟩ := by
  refine ⟨?_, ?_, ?_, ?_⟩
  · intro i hi
    simp [dcIds] at hi
  · simp [dcIds]
  · intro r hr
    cases hr
  · intro r hr
    cases hr

theorem projLoopStep_good (ctx : RowCtx) (cols : ProjVec ProjCols) (p : Projection)
    (g g2 : GenState) (h : projLoopStep ctx cols p g = some g2) (hg : GoodGen g) :
    GoodGen g2 := by
  obtain ⟨hg1, hg2, hg3, hg4⟩ := hg
  unfold projLoopStep at h
  simp only [] at h
  cases hpop : (cols.get p).pops.estimated with
  | none =>
    rw [hpop] at h
    cases h
    exact ⟨hg1, hg2, hg3, hg4⟩
  | some popA =>
    rw [hpop] at h
    simp only [] at h
    cases hfrom : (cols.get p).fromDate with
    | none =>
      rw [hfrom] at h
      cases h
      refine ⟨fun i hi => le_trans (hg1 i hi) (Nat.le_succ _), hg2, ?_, ?_⟩
      · intro r hr
        rcases List.mem_append.mp hr with hA | hB
        · exact le_trans (hg3 r hA) (Nat.le_succ _)
        · rw [(hapiPhaseRows_fields _ _ _ _ _ _ _ _ r hB).1]
      · intro r hr
        rcases List.mem_append.mp hr with hA | hB
        · exact hg4 r hA
        · obtain ⟨hid, herr, hrps, hrpe⟩ := hapiPhaseRows_fields _ _ _ _ _ _ _ _ r hB
          constructor
          · intro hmem
            exact absurd (hg1 _ hmem) (by rw [hid]; omega)
          · intro _
            refine ⟨?_, hrps, hrpe⟩
            intro hmem
            exact absurd (hg1 _ hmem) (by rw [hid]; omega)
    | some fs =>
      rw [hfrom] at h
      simp only [] at h
      cases h1 : isoParse fs with
      | none => rw [h1] at h; simp at h
      | some fd =>
        rw [h1] at h
        simp only [Option.bind_eq_bind, Option.some_bind] at h
        cases h2 : (cols.get p).toDate with
        | none => rw [h2] at h; simp at h
        | some tos =>
          rw [h2] at h
          simp only [Option.some_bind] at h
          cases h3 : isoParse tos with
          | none => rw [h3] at h; simp at h
          | some td =>
            rw [h3] at h
            simp only [Option.some_bind, Option.some.injEq] at h
            subst h
            have hfresh : g.counter + 1 ∉ dcIds g.dc := fun hmem =>
              absurd (hg1 _ hmem) (by omega)
            refine ⟨?_, nodup_dcIds_add _ _ _ hg2 hfresh, ?_, ?_⟩
            · intro i hi
              rcases (mem_dcIds_add _ _ _ i).mp hi with rfl | hi'
              · exact le_refl _
              · exact le_trans (hg1 i hi') (Nat.le_succ _)
            · intro r hr
              rcases List.mem_append.mp hr with hA | hB
              · exact le_trans (hg3 r hA) (Nat.le_succ _)
              · rw [(hapiPhaseRows_fields _ _ _ _ _ _ _ _ r hB).1]
            · intro r hr
              rcases List.mem_append.mp hr with hA | hB
              · constructor
                · intro hmem
                  rcases (mem_dcIds_add _ _ _ _).mp hmem with he | hmem'
                  · exact absurd (hg3 r hA) (by rw [he]; omega)
                  · exact (hg4 r hA).1 hmem'
                · intro herr
                  obtain ⟨hnot, hrps, hrpe⟩ := (hg4 r hA).2 herr
                  refine ⟨?_, hrps, hrpe⟩
                  intro hmem
                  rcases (mem_dcIds_add _ _ _ _).mp hmem with he | hmem'
                  · exact absurd (hg3 r hA) (by rw [he]; omega)
                  · exact hnot hmem'
              · obtain ⟨hid, herr, hrps, hrpe⟩ :=
                  hapiPhaseRows_fields _ _ _ _ _ _ _ _ r hB
                constructor
                · intro _
                  exact herr
                · intro hbad
                  exact absurd (herr.symm.trans hbad) (by decide)

theorem rowStep_good (cfg : AdmConfig) (matcher : Matcher)
    (hrpGho : String → Bool × Bool) (dsId rsId : String) (lvl : Nat) (wr : WideRow)
    (g g2 : GenState) (h : rowStep cfg matcher hrpGho dsId rsId lvl wr g = some g2)
    (hg : GoodGen g) : GoodGen g2 := by
  unfold rowStep at h
  simp only [] at h
  cases hd : parse_date wr.base.dateOfAnalysis with
  | none => rw [hd] at h; simp at h
  | some doa =>
    rw [hd] at h
    simp only [Option.bind_eq_bind, Option.some_bind] at h
    cases hq1 : projLoopStep (rowCtxOf cfg matcher hrpGho dsId rsId lvl wr doa)
        wr.cols .current g with
    | none => rw [hq1] at h; simp at h
    | some ga =>
      rw [hq1] at h
      simp only [Option.some_bind] at h
      cases hq2 : projLoopStep (rowCtxOf cfg matcher hrpGho dsId rsId lvl wr doa)
          wr.cols .first ga with
      | none => rw [hq2] at h; simp at h
      | some gb =>
        rw [hq2] at h
        simp only [Option.some_bind] at h
        exact projLoopStep_good _ _ _ _ _ h
          (projLoopStep_good _ _ _ _ _ hq2 (projLoopStep_good _ _ _ _ _ hq1 hg))

theorem genRows_good (cfg : AdmConfig) (matcher : Matcher)
    (hrpGho : String → Bool × Bool) (dsId rsId : String) (lvl : Nat) :
    ∀ (l : List WideRow) (g g2 : GenState),
      genRows cfg matcher hrpGho dsId rsId lvl l g = some g2 →
      GoodGen g → GoodGen g2 := by
  intro l
  induction l with
  | nil =>
    intro g g2 h hg
    cases h
    exact hg
  | cons wr rest ih =>
    intro g g2 h hg
    unfold genRows at h
    cases h1 : rowStep cfg matcher hrpGho dsId rsId lvl wr g with
    | none => rw [h1] at h; simp at h
    | some ga =>
      rw [h1] at h
      simp only [Option.bind_eq_bind, Option.some_bind] at h
      exact ih ga g2 h (rowStep_good _ _ _ _ _ _ _ _ _ h1 hg)

theorem genTables_good (cfg : AdmConfig) (matcher : Matcher)
    (hrpGho : String → Bool × Bool) (dsId : String) :
    ∀ (ts : List TableInput) (g g2 : GenState),
      genTables cfg matcher hrpGho dsId ts g = some g2 →
      GoodGen g → GoodGen g2 := by
  intro ts
  induction ts with
  | nil =>
    intro g g2 h hg
    cases h
    exact hg
  | cons t rest ih =>
    intro g g2 h hg
    unfold genTables at h
    cases h1 : genRows cfg matcher hrpGho dsId t.resourceId t.adminLevel t.rows g with
    | none => rw [h1] at h; simp at h
    | some ga =>
      rw [h1] at h
      simp only [Option.bind_eq_bind, Option.some_bind] at h
      exact ih ga g2 h (genRows_good _ _ _ _ _ _ _ _ _ h1 hg)

/-- C9: every harmonized HAPI row generated without a period start —
the rows carrying the "No time period provided" error and null
reference-period bounds — is exempt from duplicate resolution: its
analysis id never enters the duplicate-check grouping, the duplicate
pass assigns it no mark, and it appears verbatim (no annotation
appended) in the output of every successful `process_data` run. -/
theorem c9_no_period_rows_exempt (cfg : AdmConfig) (matcher : Matcher)
    (hrpGho : String → Bool × Bool) (dsId : String) (tables : List TableInput)
    (out : List HapiRow)
    (h : process_data cfg matcher hrpGho dsId tables = some out) :
    ∃ g2, genTables cfg matcher hrpGho dsId tables ⟨[], [], 0⟩ = some g2 ∧
      out = applyMarks (findDuplicates g2.dc) g2.hapiRows ∧
      ∀ r ∈ g2.hapiRows, r.error = noPeriodMsg →
        r.analysis_id ∉ dcIds g2.dc ∧
        getMark (findDuplicates g2.dc) r.analysis_id = none ∧
        markRow (findDuplicates g2.dc) r = r ∧
        r ∈ out ∧
        r.reference_period_start = none ∧ r.reference_period_end = none := by
  unfold process_data at h
  cases hgen : genTables cfg matcher hrpGho dsId tables ⟨[], [], 0⟩ with
  | none => rw [hgen] at h; simp at h
  | some g2 =>
    rw [hgen] at h
    simp only [Option.bind_eq_bind, Option.some_bind, Option.some.injEq] at h
    subst h
    have hgood := genTables_good cfg matcher hrpGho dsId tables _ _ hgen goodGen_init
    obtain ⟨-, -, -, hg4⟩ := hgood
    refine ⟨g2, rfl, rfl, ?_⟩
    intro r hr herr
    obtain ⟨hnot, hrps, hrpe⟩ := (hg4 r hr).2 herr
    have hget : getMark (findDuplicates g2.dc) r.analysis_id = none := by
      unfold findDuplicates
      rw [findDupsGo_frame g2.dc [] r.analysis_id hnot]
      rfl
    have hmark : markRow (findDuplicates g2.dc) r = r := by
      unfold markRow
      rw [hget]
    exact ⟨hnot, hget, hmark, List.mem_map.mpr ⟨r, hr, hmark⟩, hrps, hrpe⟩

theorem c9_witness :
    ∃ out, process_data witCfg witMatcher witHrpGho "ds" witTables9 = some out ∧
      ∃ g2, genTables witCfg witMatcher witHrpGho "ds" witTables9 ⟨[], [], 0⟩ =
          some g2 ∧
        out = applyMarks (findDuplicates g2.dc) g2.hapiRows ∧
        ∀ r ∈ g2.hapiRows, r.error = noPeriodMsg →
          r.analysis_id ∉ dcIds g2.dc ∧
          getMark (findDuplicates g2.dc) r.analysis_id = none ∧
          markRow (findDuplicates g2.dc) r = r ∧
          r ∈ out ∧
          r.reference_period_start = none ∧ r.reference_period_end = none := by
  obtain ⟨out, hout⟩ :
      ∃ o, process_data witCfg witMatcher witHrpGho "ds" witTables9 = some o :=
    ⟨_, rfl⟩
  exact ⟨out, hout,
    c9_no_period_rows_exempt witCfg witMatcher witHrpGho "ds" witTables9 out hout⟩

/-- C2 counterexample: on a two-row input producing one duplicate-check
group with two differing dates of analysis, the rows marked as
duplicates carry the error string "Duplicate row with earlier date of
analysis excluded" (capital D), and no output row carries the string
"duplicate row with earlier date of analysis excluded" quoted by the
claim. -/
theorem c2_counterexample :
    ∃ out, process_data witCfg witMatcher witHrpGho "ds" witTables = some out ∧
      (∃ r ∈ out, r.error = "Duplicate row with earlier date of analysis excluded") ∧
      ∀ r ∈ out, r.error ≠ "duplicate row with earlier date of analysis excluded" :=
  ⟨_, rfl, by decide, by decide⟩

/-- C2 (amended): in the duplicate resolution of `process_data`, for
every duplicate-check group — records sharing (country, admin1 code,
admin2 code, provider admin1 name, provider admin2 name, projection,
period start) — with at least two entries whose dates of analysis are
pairwise distinct: exactly one registered record survives unmarked,
the one carrying the latest date of analysis, regardless of analyzed
population; every earlier-dated record remains in the output stream
(nothing is deleted: the output is a row-for-row map of the generated
stream) with the error annotation "Duplicate row with earlier date of
analysis excluded" — capital D — appended to its (previously empty)
error column. -/
theorem c2_amended (cfg : AdmConfig) (matcher : Matcher)
    (hrpGho : String → Bool × Bool) (dsId : String) (tables : List TableInput)
    (g2 : GenState) (out : List HapiRow)
    (hgen : genTables cfg matcher hrpGho dsId tables ⟨[], [], 0⟩ = some g2)
    (hout : process_data cfg matcher hrpGho dsId tables = some out)
    (k : PKey) (vs : List DupEntry) (hkv : (k, vs) ∈ g2.dc)
    (hlen : 2 ≤ vs.length)
    (hdiff : (vs.map fun v => v.2.2).Nodup) :
    out = applyMarks (findDuplicates g2.dc) g2.hapiRows ∧
    out.length = g2.hapiRows.length ∧
    ∃ latest, listMax (vs.map fun v => v.2.2) = some latest ∧
      latest ∈ (vs.map fun v => v.2.2) ∧
      (∀ x ∈ vs.map fun v => v.2.2, x ≤ latest) ∧
      (vs.countP fun v => (getMark (findDuplicates g2.dc) v.1).isNone) = 1 ∧
      ∀ v ∈ vs,
        (v.2.2 = latest →
          getMark (findDuplicates g2.dc) v.1 = none ∧
          ∀ r ∈ g2.hapiRows, r.analysis_id = v.1 →
            markRow (findDuplicates g2.dc) r = r ∧ r.error = "") ∧
        (v.2.2 ≠ latest →
          getMark (findDuplicates g2.dc) v.1 = some dateMsg ∧
          ∀ r ∈ g2.hapiRows, r.analysis_id = v.1 →
            r.error = "" ∧
            markRow (findDuplicates g2.dc) r = { r with error := dateMsg }) := by
  have houteq : out = applyMarks (findDuplicates g2.dc) g2.hapiRows := by
    unfold process_data at hout
    rw [hgen] at hout
    simp only [Option.bind_eq_bind, Option.some_bind, Option.some.injEq] at hout
    exact hout.symm
  have hgood := genTables_good cfg matcher hrpGho dsId tables _ _ hgen goodGen_init
  obtain ⟨-, hg2, -, hg4⟩ := hgood
  have hvsids : ∀ v ∈ vs, v.1 ∈ dcIds g2.dc := by
    intro v hv
    exact List.mem_flatMap.mpr ⟨(k, vs), hkv, List.mem_map_of_mem (fun w => w.1) hv⟩
  obtain ⟨latest, hlm, hmem, hub, hper⟩ :=
    findDupsGo_group g2.dc [] hg2 (fun i _ => rfl) k vs hkv hlen hdiff
  have hfd : findDuplicates g2.dc = findDupsGo g2.dc [] := rfl
  have herr0 : ∀ v ∈ vs, ∀ r ∈ g2.hapiRows, r.analysis_id = v.1 → r.error = "" := by
    intro v hv r hr hid
    exact (hg4 r hr).1 (hid ▸ hvsids v hv)
  refine ⟨houteq, by rw [houteq]; simp [applyMarks], latest, hlm, hmem, hub, ?_, ?_⟩
  · have hc : (vs.countP fun v => (getMark (findDuplicates g2.dc) v.1).isNone) =
        vs.countP fun v => decide (v.2.2 = latest) := by
      apply countP_congr'
      intro v hv
      rw [hfd, hper v hv]
      by_cases hl : v.2.2 = latest
      · simp [hl]
      · simp [hl]
    rw [hc]
    exact countP_eq_one_of_nodup_map (fun v : DupEntry => v.2.2) latest vs hdiff hmem
  · intro v hv
    have hgm := hper v hv
    constructor
    · intro hl
      rw [if_pos hl] at hgm
      rw [hfd]
      refine ⟨hgm, ?_⟩
      intro r hr hid
      refine ⟨?_, herr0 v hv r hr hid⟩
      unfold markRow
      rw [hid, hgm]
    · intro hl
      rw [if_neg hl] at hgm
      rw [hfd]
      refine ⟨hgm, ?_⟩
      intro r hr hid
      refine ⟨herr0 v hv r hr hid, ?_⟩
      unfold markRow
      rw [hid, hgm]
      simp [appendErr, herr0 v hv r hr hid]

theorem c2_witness :
    ∃ g2 out,
      genTables witCfg witMatcher witHrpGho "ds" witTables ⟨[], [], 0⟩ = some g2 ∧
      process_data witCfg witMatcher witHrpGho "ds" witTables = some out ∧
      (witKey, witVs) ∈ g2.dc ∧ 2 ≤ witVs.length ∧
      (witVs.map fun v => v.2.2).Nodup ∧
      (out = applyMarks (findDuplicates g2.dc) g2.hapiRows ∧
        out.length = g2.hapiRows.length ∧
        ∃ latest, listMax (witVs.map fun v => v.2.2) = some latest ∧
          latest ∈ (witVs.map fun v => v.2.2) ∧
          (∀ x ∈ witVs.map fun v => v.2.2, x ≤ latest) ∧
          (witVs.countP fun v => (getMark (findDuplicates g2.dc) v.1).isNone) = 1 ∧
          ∀ v ∈ witVs,
            (v.2.2 = latest →
              getMark (findDuplicates g2.dc) v.1 = none ∧
              ∀ r ∈ g2.hapiRows, r.analysis_id = v.1 →
                markRow (findDuplicates g2.dc) r = r ∧ r.error = "") ∧
            (v.2.2 ≠ latest →
              getMark (findDuplicates g2.dc) v.1 = some dateMsg ∧
              ∀ r ∈ g2.hapiRows, r.analysis_id = v.1 →
                r.error = "" ∧
                markRow (findDuplicates g2.dc) r = { r with error := dateMsg })) := by
  refine ⟨_, _, rfl, rfl, ?_, ?_, ?_,
    c2_amended witCfg witMatcher witHrpGho "ds" witTables _ _ rfl rfl witKey witVs
      (by decide) (by decide) (by decide)⟩
  · decide
  · decide
  · decide
end IpcSpec

